import Mathlib

/-!
Verification of the manifest-synthesis engine of `singularity-mpi`.

The definitions below are a shallow embedding of the Go sources:
* `deffile` package (definition-file section builders, assemblers, template
  post-processor) from `src/unnamed/part_000`;
* `container` package (inspect-output parser) from `src/unnamed/part_001`;
* `ldd` package (shared-library dependency inspector) from
  `src/internal/pkg/ldd/ldd.go`.

File output is modelled functionally: each Go function that appends text to
the open definition file is embedded as a function returning the appended
text (write failures, the only error source of most builders, do not exist in
the embedding, so builders whose Go originals can only fail on I/O return
plain `String`; builders with genuine logic errors return `Except`).
Go `strings` / `path` primitives are embedded below as executable functions
on `List Char`.
-/

/-! ## Go string primitives -/

/-- `strings.Split(s, "\n")`: split a character list at every newline;
always returns at least one (possibly empty) segment, like Go. -/
def splitLinesL : List Char → List (List Char)
  | [] => [[]]
  | c :: cs =>
    let r := splitLinesL cs
    if c = '\n' then [] :: r
    else (c :: r.headD []) :: r.tail

def splitLinesStr (s : String) : List String :=
  (splitLinesL s.data).map (fun l => ⟨l⟩)

/-- Worker for `strings.Replace(s, old, new, -1)`: replace every
non-overlapping occurrence of `old`, scanning left to right.  The fuel
argument (instantiated with `s.length`, which always suffices because every
step consumes at least one character) makes the recursion structural. -/
def replaceFuel (old new : List Char) : Nat → List Char → List Char
  | _, [] => []
  | 0, s => s
  | Nat.succ n, c :: cs =>
    if old ≠ [] ∧ old <+: (c :: cs) then
      new ++ replaceFuel old new n ((c :: cs).drop old.length)
    else
      c :: replaceFuel old new n cs

/-- `strings.Replace(s, old, new, -1)` on character lists (for the non-empty
patterns used by this code base). -/
def replaceAllL (old new s : List Char) : List Char :=
  replaceFuel old new s.length s

/-- `strings.Replace(s, old, new, -1)`. -/
def replaceAllStr (s old new : String) : String :=
  ⟨replaceAllL old.data new.data s.data⟩

/-- `strings.Replace(s, old, new, 1)`: replace only the first occurrence. -/
def replFirstL (old new : List Char) : List Char → List Char
  | [] => []
  | c :: cs =>
    if old ≠ [] ∧ old <+: (c :: cs) then
      new ++ (c :: cs).drop old.length
    else
      c :: replFirstL old new cs

/-- `strings.Replace(s, old, new, 1)`. -/
def replaceFirstStr (s old new : String) : String :=
  ⟨replFirstL old.data new.data s.data⟩

/-- `strings.Contains(s, pat)`. -/
abbrev containsStr (s pat : String) : Prop := pat.data <:+: s.data

/-- `strings.HasSuffix(s, pat)`. -/
abbrev endsWithStr (s pat : String) : Prop := pat.data <:+ s.data

/-- `strings.HasPrefix(s, pat)`. -/
abbrev startsWithStr (s pat : String) : Prop := pat.data <+: s.data

/-- The string contains no newline character. -/
def noNl (s : String) : Prop := ∀ c ∈ s.data, c ≠ '\n'

instance (s : String) : Decidable (noNl s) := by
  unfold noNl; infer_instance

/-- Trailing-slash stripping step of Go `path.Base`. -/
def dropTrailingSlashes (l : List Char) : List Char :=
  (l.reverse.dropWhile (fun c => c = '/')).reverse

/-- Last path element (suffix after the last slash). -/
def afterLastSlash (l : List Char) : List Char :=
  (l.reverse.takeWhile (fun c => c ≠ '/')).reverse

/-- Go `path.Base` (also `filepath.Base` on slash-separated paths):
empty path gives `"."`, trailing slashes are stripped, the part after the
last remaining slash is returned, and an all-slash path gives `"/"`. -/
def pathBaseL (l : List Char) : List Char :=
  if l = [] then ['.']
  else
    let stripped := dropTrailingSlashes l
    let base := afterLastSlash stripped
    if base = [] then ['/'] else base

/-- Go `path.Base` on strings. -/
def pathBase (s : String) : String := ⟨pathBaseL s.data⟩

/-- Modelled from the spec: Go `filepath.Join` of two components (used for
the in-container source path).  Joining with a slash; Go's additional
path-cleaning pass is elided, it is irrelevant to every claim below. -/
def filepathJoin (a b : String) : String :=
  if a = "" then b else a ++ "/" ++ b

/-! ## External helpers modelled from the spec

`util.DetectTarballFormat`, `util.GetTarArgs` and `util.DetectURLType` come
from the external `go_util` dependency, and `distro.GetBaseImageLibraryURL`
from a repository package outside `src/`; they are modelled from the spec's
descriptions. -/

inductive TarFormat where
  | BZ2 | GZ | TAR | Unknown
deriving DecidableEq

/-- Modelled from the spec: `util.DetectTarballFormat` (external `go_util`
helper, not under src/).  Archive-suffix sniffing: `.tar.bz2` → bzip2,
`.tar.gz`/`.tgz` → gzip, `.tar` → plain tar, any other suffix → unknown. -/
def DetectTarballFormat (name : String) : TarFormat :=
  if endsWithStr name ".tar.bz2" then .BZ2
  else if endsWithStr name ".tar.gz" then .GZ
  else if endsWithStr name ".tgz" then .GZ
  else if endsWithStr name ".tar" then .TAR
  else .Unknown

/-- Modelled from the spec: `util.GetTarArgs` (external `go_util` helper, not
under src/) maps the sniffed format to the tar extraction flag — bzip2 →
`-xjf`, gzip → `-xzf`, plain tar → `-xf`; the spec assigns no flag to an
unrecognized format and the helper yields the empty string for it. -/
def GetTarArgs : TarFormat → String
  | .BZ2 => "-xjf"
  | .GZ => "-xzf"
  | .TAR => "-xf"
  | .Unknown => ""

inductive URLType where
  | Git | Http | File
deriving DecidableEq

/-- Modelled from the spec: `util.DetectURLType` (external `go_util` helper,
not under src/).  The source location's scheme selects the strategy: a
`git`-schemed URL is a git source, an `http(s)` URL is a download, and
anything scheme-less is a bare file reference. -/
def DetectURLType (url : String) : URLType :=
  if startsWithStr url "git" then .Git
  else if startsWithStr url "http" then .Http
  else .File

/-! ## Data model (src/unnamed/part_000, src/unnamed/part_001, ldd.go) -/

/-- `distro.ID`. -/
structure DistroID where
  Name : String
  Version : String
  Codename : String

/-- `implem.Info` (fields used by the embedded code). -/
structure ImplemInfo where
  ID : String
  Version : String
  URL : String

/-- `buildenv.Info` (fields used by the embedded code). -/
structure BuildEnvInfo where
  SrcDir : String
  InstallDir : String

/-- `app.Info` (fields used by the embedded code). -/
structure AppInfo where
  Name : String
  BinName : String
  BinPath : String
  Source : String
  InstallCmd : String

/-- `TemplateTags`. -/
structure TemplateTags where
  Version : String
  Tarball : String
  URL : String
  Dir : String
  InstallConffile : String
  UninstallConffile : String
  Ifnet : String

/-- `sys.Config` (fields used by the embedded code). -/
structure SysConfig where
  Nopriv : Bool
  Debug : Bool

/-- `DefFileData`.  `MpiImplm` and `InternalEnv` are pointers in Go and may
be nil, hence `Option`. -/
structure DefFileData where
  Path : String
  DistroID : DistroID
  MpiImplm : Option ImplemInfo
  Tags : TemplateTags
  InternalEnv : Option BuildEnvInfo
  Model : String

/-- `container.HybridModel`. -/
def HybridModel : String := "hybrid"

/-- `container.BindModel`. -/
def BindModel : String := "bind"

/-- `distroCodenameTag`. -/
def distroCodenameTag : String := "DISTROCODENAME"

/-- Dereference of `deffile.MpiImplm`.  The Go functions that use this
dereference the pointer unconditionally (a nil pointer would crash, not
return); totalized with the zero value, and every theorem below supplies
`some`. -/
def mpiOf (d : DefFileData) : ImplemInfo :=
  d.MpiImplm.getD { ID := "", Version := "", URL := "" }

/-- Dereference of `deffile.InternalEnv` (same convention as `mpiOf`). -/
def envOf (d : DefFileData) : BuildEnvInfo :=
  d.InternalEnv.getD { SrcDir := "", InstallDir := "" }

/-! ## ldd package (src/internal/pkg/ldd/ldd.go) -/

/-- `ldd.Module`. -/
structure LddModule where
  GetDependencies : String → List String

/-- Host-environment facts consumed by `GetPackageDependenciesForFile`:
whether `exec.LookPath("ldd")` succeeds, and the captured stdout of the
`ldd` invocation (`none` when `cmd.Run` fails). -/
structure LddHost where
  lddFound : Bool
  lddOutput : Option String

/-- `(*Module).GetPackageDependenciesForFile`: warn and return the empty
list when `ldd` is absent or its invocation fails; otherwise parse the
captured output.  The Go function has no error return. -/
def GetPackageDependenciesForFile (m : LddModule) (host : LddHost)
    (file : String) : List String :=
  if !host.lddFound then []
  else
    match host.lddOutput with
    | none => []
    | some out => m.GetDependencies out

/-! ## Section builders (src/unnamed/part_000) -/

/-- `addLabels`: emits the `%labels` section and, in the non-bind branch
with an empty `BinPath`, mutates the shared `app` descriptor; the returned
pair is (emitted text, descriptor after the call). -/
def addLabels (app : AppInfo) (deffile : DefFileData) : String × AppInfo :=
  let base :=
    "%labels\n"
    ++ "\tLinux_distribution " ++ deffile.DistroID.Name ++ "\n"
    ++ "\tLinux_version " ++ deffile.DistroID.Version ++ "\n"
    ++ (match deffile.MpiImplm with
        | some m => "\tMPI_Implementation " ++ m.ID ++ "\n"
                    ++ "\tMPI_Version " ++ m.Version ++ "\n"
        | none => "")
    ++ (match deffile.InternalEnv with
        | some env =>
            if env.InstallDir ≠ "" then "\tMPI_Directory " ++ env.InstallDir ++ "\n" else ""
        | none => "")
    ++ (if deffile.Model ≠ "" then "\tModel " ++ deffile.Model ++ "\n" else "")
    ++ "\tApplication " ++ app.Name ++ "\n"
  if deffile.Model = BindModel then
    (base ++ "\tApp_exe /opt/" ++ app.BinName ++ "\n" ++ "\n", app)
  else if app.BinPath = "" then
    let app' := { app with BinPath := "/opt/" ++ app.BinName }
    (base ++ "\tApp_exe " ++ app'.BinPath ++ "\n" ++ "\n", app')
  else
    (base ++ "\tApp_exe " ++ app.BinPath ++ "\n" ++ "\n", app)

/-- `addDockerBootstrap`. -/
def addDockerBootstrap (deffile : DefFileData) : String :=
  "Bootstrap: docker\nFrom: " ++ deffile.DistroID.Name ++ "\n\n"

/-- `addYumBootstrap`. -/
def addYumBootstrap (deffile : DefFileData) : String :=
  "Bootstrap: yum\nOSVersion: " ++ deffile.DistroID.Version
  ++ "\nMirrorURL: http://mirror.centos.org/centos-%\x7bOSVERSION\x7d/%\x7bOSVERSION\x7d/os/$basearch/\nInclude: yum\n\n"

/-- `addDebootstrapBootstrap`. -/
def addDebootstrapBootstrap (deffile : DefFileData) : String :=
  "Bootstrap: debootstrap\nOSVersion: " ++ deffile.DistroID.Codename
  ++ "\nMirrorURL: http://us.archive.ubuntu.com/ubuntu/\n\n"

/-- `addDistroInit`: `%post` header plus the per-distro initialization
command block (empty for unrecognized distros). -/
def addDistroInit (deffile : DefFileData) (sysCfg : SysConfig) : String :=
  "%post\n"
  ++ (if deffile.DistroID.Name = "ubuntu" then
        "\tapt-get update && apt-get install -y dash wget git bash gcc gfortran g++ make file software-properties-common\n\n"
        ++ "\tadd-apt-repository universe\n"
        ++ "\tadd-apt-repository multiverse\n"
        ++ "\tapt-get update\n\n"
      else if deffile.DistroID.Name = "centos" then
        (if !sysCfg.Nopriv then "\trpm --rebuilddb\n" else "")
        ++ "\tyum -y update\n"
        ++ "\tyum -y install bash wget tar bzip2 git make gcc gcc-c++ gcc-gfortran\n"
        ++ "\tyum clean all\n\n"
      else "")

/-- `AddBootstrap`.  The Go function first consults
`distro.GetBaseImageLibraryURL(deffile.DistroID, sysCfg)`; that resolver
lives outside src/ (spec §6: "`GetBaseImageLibraryURL(distro, config) →
url-or-empty`"), so its result is passed in as `libraryURL`. -/
def AddBootstrap (libraryURL : String) (deffile : DefFileData)
    (sysCfg : SysConfig) : Except String String :=
  if libraryURL ≠ "" then
    .ok ("Bootstrap: library\nFrom: " ++ libraryURL ++ "\n\n")
  else if deffile.DistroID.Name = "ubuntu" then
    .ok (addDebootstrapBootstrap deffile)
  else if deffile.DistroID.Name = "centos" then
    if !sysCfg.Nopriv then .ok (addYumBootstrap deffile)
    else .ok (addDockerBootstrap deffile)
  else
    .error ("unsupported distro: " ++ deffile.DistroID.Name)

/-- `AddMPIInstall`: exports, scratch dir, download + extraction (flag from
suffix sniffing, with no error branch), configure/make/install, and path
exports. -/
def AddMPIInstall (deffile : DefFileData) : String :=
  let mpitarball := pathBase (mpiOf deffile).URL
  let tarArgs := GetTarArgs (DetectTarballFormat mpitarball)
  "\texport MPI_VERSION=" ++ (mpiOf deffile).Version
  ++ "\n\texport MPI_URL=\"" ++ (mpiOf deffile).URL ++ "\"\n"
  ++ "\texport MPI_DIR=" ++ (envOf deffile).InstallDir ++ "\n"
  ++ "\texport MPI_BUILDDIR=/opt/build-mpi\n\tmkdir -p $MPI_BUILDDIR\n\n"
  ++ "\tcd $MPI_BUILDDIR && wget $MPI_URL && tar " ++ tarArgs ++ " " ++ mpitarball ++ "\n"
  ++ "\tcd $MPI_BUILDDIR/" ++ (mpiOf deffile).ID
  ++ "-$MPI_VERSION && ./configure --prefix=$MPI_DIR && make -j8 install\n"
  ++ "\texport PATH=$MPI_DIR/bin:$PATH\n\texport LD_LIBRARY_PATH=$MPI_DIR/lib:$LD_LIBRARY_PATH\n\texport MANPATH=$MPI_DIR/share/man:$MANPATH\n\n"

/-- `addMPIEnv`. -/
def addMPIEnv (deffile : DefFileData) : String :=
  "%environment\n\tMPI_DIR=" ++ (envOf deffile).InstallDir ++ "\n"
  ++ "\texport MPI_DIR\n\texport PATH=$MPI_DIR/bin:$PATH\n\texport LD_LIBRARY_PATH=$MPI_DIR/lib:$LD_LIBRARY_PATH\n\n"

/-- `UpdateDistroCodename`. -/
def UpdateDistroCodename (data distro : String) : String :=
  replaceAllStr data distroCodenameTag distro

/-- `UpdateDeffileTemplate`.  The file system is made explicit: `content` is
what `ioutil.ReadFile(data.Path)` yields, and `.ok c` means the Go function
reaches `ioutil.WriteFile` with the new content `c`; every `.error` is
returned before that write, leaving the file untouched. -/
def UpdateDeffileTemplate (data : DefFileData) (content : String) :
    Except String String :=
  if (mpiOf data).Version = "" ∨ (mpiOf data).URL = ""
      ∨ data.Path = "" ∨ data.Tags.Version = ""
      ∨ data.Tags.URL = "" ∨ data.Tags.Tarball = ""
      ∨ data.DistroID.Name = "" then
    .error "invalid parameter(s)"
  else
    let tarball := pathBase (mpiOf data).URL
    let tarArgsE : Except String String :=
      match DetectTarballFormat tarball with
      | .BZ2 => .ok "-xjf"
      | .GZ => .ok "-xzf"
      | .TAR => .ok "-xf"
      | .Unknown => .error ("un-supported tarball format for " ++ tarball)
    match tarArgsE with
    | .error e => .error e
    | .ok tarArgs =>
      let c1 := replaceAllStr content data.Tags.Version (mpiOf data).Version
      let c2 := replaceAllStr c1 data.Tags.URL (mpiOf data).URL
      let c3 := replaceAllStr c2 data.Tags.Tarball tarball
      let c4 := replaceAllStr c3 "TARARGS" tarArgs
      .ok (UpdateDistroCodename c4 data.DistroID.Codename)

/-- `createFilesSection`. -/
def createFilesSection (app : AppInfo) (data : DefFileData) : String :=
  "%files\n"
  ++ (if data.Model = BindModel then
        "\t" ++ app.BinPath ++ " /opt\n\n"
      else if data.Model = HybridModel then
        if DetectTarballFormat app.Source = TarFormat.Unknown then
          "\t" ++ replaceFirstStr app.Source "file://" "" ++ " /opt\n\n"
        else ""
      else
        "\t" ++ replaceFirstStr app.Source "file://" "" ++ " /opt\n\n")

/-- `addAppInstall`: dispatch on the source's URL type; the bare-file branch
compiles with `mpicc` when a binary path is configured, falls back to the
configured install command, and otherwise fails. -/
def addAppInstall (app : AppInfo) (data : DefFileData) : Except String String :=
  let installCmd := if app.InstallCmd ≠ "" then app.InstallCmd else "make install"
  let core : Except String String :=
    match DetectURLType app.Source with
    | .Git => .ok ("\tcd /opt/$APPDIR" ++ " && " ++ installCmd ++ "\n")
    | .File =>
      let containerSrcPath := filepathJoin (envOf data).SrcDir (pathBase app.Source)
      if app.BinPath ≠ "" then
        .ok ("\tcd /opt/$APPDIR && mpicc -o " ++ app.BinPath ++ " " ++ containerSrcPath ++ "\n")
      else if app.InstallCmd ≠ "" then
        .ok ("\tcd /opt/$APPDIR && " ++ app.InstallCmd ++ "\n")
      else
        .error "unable to figure out how to compile source file"
    | .Http => .ok ("\tcd /opt/$APPDIR && " ++ installCmd ++ "\n")
  match core with
  | .error e => .error e
  | .ok s =>
    .ok (s ++ "\tcd /opt && ln -s $APPDIR/" ++ app.BinName ++ " " ++ app.BinName
        ++ " 2> /dev/null || true\n\n")

/-- `addMPICleanup`. -/
def addMPICleanup (app : AppInfo) (data : DefFileData) : String :=
  if data.Model = HybridModel then "\n\trm -rf $MPI_BUILDDIR\n\n" else ""

/-- `addDetectAppDir`. -/
def addDetectAppDir : String :=
  "\tAPPDIR=`ls -l /opt | egrep \x27^d\x27 | head -1 | awk \x27\x7bprint $9\x7d\x27`\n\n"

/-- `addAppDownload`: git sources are cloned, http(s) sources are downloaded
and extracted (flag from suffix sniffing of the source URL, with no error
branch); bare-file sources are not downloaded. -/
def addAppDownload (app : AppInfo) (data : DefFileData) : String :=
  match DetectURLType app.Source with
  | .Git =>
    "\tcd /opt && git clone " ++ app.Source ++ "\n" ++ addDetectAppDir
  | .Http =>
    let tarArgs := GetTarArgs (DetectTarballFormat app.Source)
    "\tcd /opt && wget " ++ app.Source ++ " && tar " ++ tarArgs ++ " "
    ++ pathBase app.Source ++ "\n" ++ addDetectAppDir
  | .File => ""

/-- `addDebianDependencies`: the `apt install` line only for a non-empty
list, then the fixed symlink and `ldconfig` entries. -/
def addDebianDependencies (list : List String) : String :=
  (if list.length > 0 then
     "\tapt install -y " ++ String.intercalate " " list ++ "\n"
   else "")
  ++ "\tln -s /usr/lib/x86_64-linux-gnu/libosmcomp.so /usr/lib/x86_64-linux-gnu/libosmcomp.so.3\n"
  ++ "\tldconfig\n"

/-- `addRPMDependencies`. -/
def addRPMDependencies (list : List String) : String :=
  if list.length > 0 then
    "\tyum install -y " ++ String.intercalate " " list ++ "\n"
  else ""

/-- `addDependencies`: family dispatch on the distro name, a no-op for
unrecognized names. -/
def addDependencies (deffile : DefFileData) (list : List String) : String :=
  if deffile.DistroID.Name = "centos" then addRPMDependencies list
  else if deffile.DistroID.Name = "ubuntu" then addDebianDependencies list
  else ""

/-- `addCleanUp`, exactly as in the source: the `"centos"` case emits the
apt-family clean command and the `"ubuntu"` case the yum-family one. -/
def addCleanUp (deffile : DefFileData) : String :=
  if deffile.DistroID.Name = "centos" then "\tapt-get clean\n"
  else if deffile.DistroID.Name = "ubuntu" then "\tyum clean all\n"
  else ""

/-- `CreateHybridDefFile`: the hybrid assembly sequence.  `libraryURL` is the
registry-resolver result (see `AddBootstrap`); `.ok` carries the full
concatenated file content.  The mutated app descriptor produced by
`addLabels` is the one seen by every later builder, as in Go where the
builders share one `*app.Info`. -/
def CreateHybridDefFile (libraryURL : String) (app : AppInfo)
    (data : DefFileData) (sysCfg : SysConfig) : Except String String :=
  if data.Path = "" then .error "invalid parameter(s)"
  else
    match AddBootstrap libraryURL data sysCfg with
    | .error e => .error ("failed to create the bootstrap section of the definition file: " ++ e)
    | .ok boot =>
      let labelsPair := addLabels app data
      let app1 := labelsPair.2
      let files :=
        if DetectURLType app1.Source = URLType.File then
          createFilesSection app1 data
        else ""
      match addAppInstall app1 data with
      | .error e => .error ("failed to create the post section of the definition file: " ++ e)
      | .ok appinst =>
        .ok (boot ++ labelsPair.1 ++ files ++ addMPIEnv data
             ++ addDistroInit data sysCfg ++ addAppDownload app1 data
             ++ AddMPIInstall data ++ appinst ++ addMPICleanup app1 data)

/-! ## container package (src/unnamed/part_001) -/

/-- `container.Config` (fields read or written by the embedded code). -/
structure ContainerConfig where
  Name : String := ""
  Path : String := ""
  Distro : String := ""
  URL : String := ""
  Model : String := ""
  AppExe : String := ""
  MPIDir : String := ""

/-- One iteration of the loop in `parseInspectOutput`: the six
`strings.Contains`/`strings.Replace` checks, in source order. -/
def parseInspectLine (st : ContainerConfig × ImplemInfo) (line : String) :
    ContainerConfig × ImplemInfo :=
  let cfg := st.1
  let mpi := st.2
  let mpi := if containsStr line "MPI_Implementation: " then
    { mpi with ID := replaceAllStr line "MPI_Implementation: " "" } else mpi
  let mpi := if containsStr line "MPI_Version: " then
    { mpi with Version := replaceAllStr line "MPI_Version: " "" } else mpi
  let cfg := if containsStr line "Model: " then
    { cfg with Model := replaceAllStr line "Model: " "" } else cfg
  let cfg := if containsStr line "Linux_version: " then
    { cfg with Distro := replaceAllStr line "Linux_version: " "" } else cfg
  let cfg := if containsStr line "App_exe: " then
    { cfg with AppExe := replaceAllStr line "App_exe: " "" } else cfg
  let cfg := if containsStr line "MPI_Directory: " then
    { cfg with MPIDir := replaceAllStr line "MPI_Directory: " "" } else cfg
  (cfg, mpi)

/-- `parseInspectOutput`. -/
def parseInspectOutput (output : String) : ContainerConfig × ImplemInfo :=
  (splitLinesStr output).foldl parseInspectLine
    ({}, { ID := "", Version := "", URL := "" })

/-! ## Properties of the replacement scanner -/

theorem replaceFuel_nil (old new : List Char) (fuel : Nat) :
    replaceFuel old new fuel [] = [] := by
  cases fuel <;> rfl

theorem replaceFuel_zero (old new : List Char) (s : List Char) :
    replaceFuel old new 0 s = s := by
  cases s <;> rfl

theorem replaceFuel_succ_cons (old new : List Char) (n : Nat) (c : Char)
    (cs : List Char) :
    replaceFuel old new (n + 1) (c :: cs) =
      if old ≠ [] ∧ old <+: (c :: cs) then
        new ++ replaceFuel old new n ((c :: cs).drop old.length)
      else
        c :: replaceFuel old new n cs := rfl

/-- If the pattern does not occur, the scanner is the identity. -/
theorem replaceFuel_no_occurrence (old new : List Char) :
    ∀ (fuel : Nat) (s : List Char), ¬ old <:+: s →
      replaceFuel old new fuel s = s := by
  intro fuel
  induction fuel with
  | zero => intro s _; exact replaceFuel_zero old new s
  | succ n ih =>
    intro s h
    cases s with
    | nil => exact replaceFuel_nil old new _
    | cons c cs =>
      rw [replaceFuel_succ_cons, if_neg, ih cs (fun hin => h (List.infix_cons hin))]
      rintro ⟨-, hpre⟩
      exact h hpre.isInfix

/-- Characters of `new` stay out of `p`: a `p`-prefix of the scanner's output
pulls back to a `p`-prefix of the input. -/
theorem prefix_of_prefix_replaceFuel (old new : List Char) (hnew : new ≠ []) :
    ∀ (fuel : Nat) (s p : List Char), (∀ c ∈ new, c ∉ p) →
      p <+: replaceFuel old new fuel s → p <+: s := by
  intro fuel
  induction fuel with
  | zero =>
    intro s p _ hp
    cases s with
    | nil => rwa [replaceFuel_nil] at hp
    | cons c cs => rwa [replaceFuel_zero] at hp
  | succ n ih =>
    intro s p hdisj hp
    cases s with
    | nil => rwa [replaceFuel_nil] at hp
    | cons c cs =>
      rw [replaceFuel_succ_cons] at hp
      by_cases hg : old ≠ [] ∧ old <+: (c :: cs)
      · rw [if_pos hg] at hp
        cases p with
        | nil => exact List.nil_prefix
        | cons q p' =>
          obtain ⟨m, new', rfl⟩ := List.exists_cons_of_ne_nil hnew
          rw [List.cons_append, List.cons_prefix_cons] at hp
          have hmem : m ∈ q :: p' := by
            rw [hp.1]
            exact List.mem_cons_self _ _
          exact absurd hmem (hdisj m (List.mem_cons_self _ _))
      · rw [if_neg hg] at hp
        cases p with
        | nil => exact List.nil_prefix
        | cons q p' =>
          rw [List.cons_prefix_cons] at hp
          have hp' := ih cs p'
            (fun x hx hmem => hdisj x hx (List.mem_cons_of_mem _ hmem)) hp.2
          rw [List.cons_prefix_cons]
          exact ⟨hp.1, hp'⟩

/-- An occurrence of a non-empty `pat` inside `a ++ b` lies inside `b`,
or `a` shares a character with `pat`. -/
theorem isInfix_append_cases {pat a b : List Char} (hp : pat ≠ [])
    (h : pat <:+: a ++ b) : pat <:+: b ∨ ∃ c ∈ a, c ∈ pat := by
  obtain ⟨x, y, hxy⟩ := h
  rw [List.append_assoc] at hxy
  rcases List.append_eq_append_iff.mp hxy with ⟨a', ha, hb⟩ | ⟨c', _, hb⟩
  · rcases List.append_eq_append_iff.mp hb with ⟨w, hw, _⟩ | ⟨w, hw, hbw⟩
    · obtain ⟨pc, pr, rfl⟩ := List.exists_cons_of_ne_nil hp
      right
      refine ⟨pc, ?_, List.mem_cons_self _ _⟩
      rw [ha, hw]
      simp
    · cases a' with
      | nil =>
        left
        simp only [List.nil_append] at hw
        exact ⟨[], y, by rw [hbw, ← hw]; simp⟩
      | cons ac a'' =>
        right
        refine ⟨ac, ?_, ?_⟩
        · rw [ha]; simp
        · rw [hw]; simp
  · left
    exact ⟨c', y, by rw [hb]; simp⟩

/-- Removal: with enough fuel, and a non-empty replacement sharing no
character with the pattern, no occurrence of the pattern survives. -/
theorem not_infix_replaceFuel (old new : List Char) (hold : old ≠ [])
    (hnew : new ≠ []) (hdisj : ∀ c ∈ new, c ∉ old) :
    ∀ (fuel : Nat) (s : List Char), s.length ≤ fuel →
      ¬ old <:+: replaceFuel old new fuel s := by
  intro fuel
  induction fuel with
  | zero =>
    intro s hs
    have hnil : s = [] := List.eq_nil_of_length_eq_zero (Nat.le_zero.mp hs)
    subst hnil
    rw [replaceFuel_nil, List.infix_nil]
    exact hold
  | succ n ih =>
    intro s hs
    cases s with
    | nil => rw [replaceFuel_nil, List.infix_nil]; exact hold
    | cons c cs =>
      rw [replaceFuel_succ_cons]
      by_cases hg : old ≠ [] ∧ old <+: (c :: cs)
      · rw [if_pos hg]
        intro hin
        have holdpos : 0 < old.length := List.length_pos.mpr hold
        have hdroplen : ((c :: cs).drop old.length).length ≤ n := by
          rw [List.length_drop]
          simp only [List.length_cons] at hs ⊢
          omega
        rcases isInfix_append_cases hold hin with h1 | ⟨ch, hchnew, hchold⟩
        · exact ih _ hdroplen h1
        · exact hdisj ch hchnew hchold
      · rw [if_neg hg]
        intro hin
        rcases List.infix_cons_iff.mp hin with hpre | hinf
        · obtain ⟨oc, old', holdeq⟩ := List.exists_cons_of_ne_nil hold
          rw [holdeq, List.cons_prefix_cons] at hpre
          have hsub : ∀ x ∈ new, x ∉ old' := by
            intro x hx hmem
            exact hdisj x hx (by rw [holdeq]; exact List.mem_cons_of_mem _ hmem)
          have h1 : old' <+: cs :=
            prefix_of_prefix_replaceFuel (oc :: old') new hnew n cs old' hsub hpre.2
          exact hg ⟨hold, by
            rw [holdeq, List.cons_prefix_cons]; exact ⟨hpre.1, h1⟩⟩
        · have hcslen : cs.length ≤ n := by
            simp only [List.length_cons] at hs; omega
          exact ih cs hcslen hinf

/-- Preservation: a pass for a different pattern cannot create an occurrence
of `pat`, as long as the replacement is non-empty and shares no character
with `pat`. -/
theorem replaceFuel_keeps_no_occurrence (old new pat : List Char)
    (hnew : new ≠ []) (hpat : pat ≠ []) (hdisj : ∀ c ∈ new, c ∉ pat) :
    ∀ (fuel : Nat) (s : List Char), ¬ pat <:+: s →
      ¬ pat <:+: replaceFuel old new fuel s := by
  intro fuel
  induction fuel with
  | zero =>
    intro s h
    cases s with
    | nil => rwa [replaceFuel_nil]
    | cons c cs => rwa [replaceFuel_zero]
  | succ n ih =>
    intro s h
    cases s with
    | nil => rwa [replaceFuel_nil]
    | cons c cs =>
      rw [replaceFuel_succ_cons]
      by_cases hg : old ≠ [] ∧ old <+: (c :: cs)
      · rw [if_pos hg]
        intro hin
        have hdropn : ¬ pat <:+: (c :: cs).drop old.length :=
          fun hx => h (hx.trans (List.drop_suffix _ _).isInfix)
        rcases isInfix_append_cases hpat hin with h1 | ⟨ch, hchnew, hchpat⟩
        · exact ih _ hdropn h1
        · exact hdisj ch hchnew hchpat
      · rw [if_neg hg]
        intro hin
        rcases List.infix_cons_iff.mp hin with hpre | hinf
        · obtain ⟨pc, pr, hpateq⟩ := List.exists_cons_of_ne_nil hpat
          rw [hpateq, List.cons_prefix_cons] at hpre
          have hsub : ∀ x ∈ new, x ∉ pr := by
            intro x hx hmem
            exact hdisj x hx (by rw [hpateq]; exact List.mem_cons_of_mem _ hmem)
          have h1 : pr <+: cs :=
            prefix_of_prefix_replaceFuel old new hnew n cs pr hsub hpre.2
          exact h (List.infix_cons_iff.mpr (Or.inl (by
            rw [hpateq, List.cons_prefix_cons]; exact ⟨hpre.1, h1⟩)))
        · exact ih cs (fun hx => h (List.infix_cons hx)) hinf

/-- The scanner does not depend on the fuel, once sufficient. -/
theorem replaceFuel_congr (old new : List Char) :
    ∀ (f1 f2 : Nat) (s : List Char), s.length ≤ f1 → s.length ≤ f2 →
      replaceFuel old new f1 s = replaceFuel old new f2 s := by
  intro f1
  induction f1 with
  | zero =>
    intro f2 s h1 _
    have hnil : s = [] := List.eq_nil_of_length_eq_zero (Nat.le_zero.mp h1)
    subst hnil
    rw [replaceFuel_nil, replaceFuel_nil]
  | succ n ih =>
    intro f2 s h1 h2
    cases s with
    | nil => rw [replaceFuel_nil, replaceFuel_nil]
    | cons c cs =>
      cases f2 with
      | zero => simp only [List.length_cons] at h2; omega
      | succ m =>
        rw [replaceFuel_succ_cons, replaceFuel_succ_cons]
        by_cases hg : old ≠ [] ∧ old <+: (c :: cs)
        · rw [if_pos hg, if_pos hg]
          have holdpos : 0 < old.length := List.length_pos.mpr hg.1
          congr 1
          apply ih
          · rw [List.length_drop]; simp only [List.length_cons] at h1 ⊢; omega
          · rw [List.length_drop]; simp only [List.length_cons] at h2 ⊢; omega
        · rw [if_neg hg, if_neg hg]
          simp only [List.length_cons] at h1 h2
          rw [ih m cs (by omega) (by omega)]

theorem replaceAllL_no_occurrence (old new s : List Char) (h : ¬ old <:+: s) :
    replaceAllL old new s = s :=
  replaceFuel_no_occurrence old new s.length s h

theorem not_infix_replaceAllL (old new : List Char) (hold : old ≠ [])
    (hnew : new ≠ []) (hdisj : ∀ c ∈ new, c ∉ old) (s : List Char) :
    ¬ old <:+: replaceAllL old new s :=
  not_infix_replaceFuel old new hold hnew hdisj s.length s (Nat.le_refl _)

theorem replaceAllL_keeps_no_occurrence (old new pat : List Char)
    (hnew : new ≠ []) (hpat : pat ≠ []) (hdisj : ∀ c ∈ new, c ∉ pat)
    (s : List Char) (h : ¬ pat <:+: s) :
    ¬ pat <:+: replaceAllL old new s :=
  replaceFuel_keeps_no_occurrence old new pat hnew hpat hdisj s.length s h

/-- Peeling a leading occurrence of the pattern. -/
theorem replaceAllL_left (old new v : List Char) (hold : old ≠ []) :
    replaceAllL old new (old ++ v) = new ++ replaceAllL old new v := by
  obtain ⟨oc, old', rfl⟩ := List.exists_cons_of_ne_nil hold
  unfold replaceAllL
  have hlen : ((oc :: old') ++ v).length = (old' ++ v).length + 1 := by simp
  rw [hlen, List.cons_append, replaceFuel_succ_cons, if_pos
    ⟨List.cons_ne_nil _ _, by rw [← List.cons_append]; exact List.prefix_append _ _⟩]
  congr 1
  have hdrop : (oc :: (old' ++ v)).drop (oc :: old').length = v := by
    rw [List.length_cons, List.drop_succ_cons, List.drop_left]
  rw [hdrop]
  apply replaceFuel_congr
  · simp
  · exact Nat.le_refl _

/-! ## Properties of line splitting -/

theorem splitLinesL_nil : splitLinesL [] = [[]] := rfl

theorem splitLinesL_cons (c : Char) (cs : List Char) :
    splitLinesL (c :: cs) =
      if c = '\n' then [] :: splitLinesL cs
      else (c :: (splitLinesL cs).headD []) :: (splitLinesL cs).tail := rfl

theorem splitLinesL_newline (b : List Char) :
    splitLinesL ('\n' :: b) = [] :: splitLinesL b := by
  rw [splitLinesL_cons, if_pos rfl]

theorem splitLinesL_append (a : List Char) (ha : ∀ c ∈ a, c ≠ '\n') :
    ∀ (b h : List Char) (t : List (List Char)), splitLinesL b = h :: t →
      splitLinesL (a ++ b) = (a ++ h) :: t := by
  induction a with
  | nil => intro b h t hb; simpa using hb
  | cons c a' ih =>
    intro b h t hb
    have hc : c ≠ '\n' := ha c (List.mem_cons_self _ _)
    rw [List.cons_append, splitLinesL_cons, if_neg hc,
        ih (fun x hx => ha x (List.mem_cons_of_mem _ hx)) b h t hb]
    simp

/-- Number of lines of `s` that begin with `pre`. -/
def countLinesWithPre (s pre : String) : Nat :=
  (splitLinesL s.data).countP (fun l => decide (pre.data <+: l))

theorem strData_append (a b : String) : (a ++ b).data = a.data ++ b.data := rfl

theorem not_prefix_cons_of_ne_head {a b : Char} (l₁ l₂ : List Char)
    (h : a ≠ b) : ¬ (a :: l₁ <+: b :: l₂) :=
  fun hp => h (List.cons_prefix_cons.mp hp).1

theorem prefix_append_right {p a : List Char} (v : List Char) (h : p <+: a) :
    p <+: a ++ v :=
  h.trans (List.prefix_append a v)

/-! ## Substring combinators -/

theorem containsStr_append_left (a b pat : String) (h : containsStr a pat) :
    containsStr (a ++ b) pat := by
  obtain ⟨x, y, hxy⟩ := h
  exact ⟨x, y ++ b.data, by rw [strData_append, ← hxy]; simp⟩

theorem containsStr_append_right (a b pat : String) (h : containsStr b pat) :
    containsStr (a ++ b) pat := by
  obtain ⟨x, y, hxy⟩ := h
  exact ⟨a.data ++ x, y, by rw [strData_append, ← hxy]; simp⟩

theorem endsWithStr_append_right (a b pat : String) (h : endsWithStr b pat) :
    endsWithStr (a ++ b) pat := by
  obtain ⟨t, ht⟩ := h
  exact ⟨a.data ++ t, by rw [strData_append, ← ht]; simp⟩

theorem endsWithStr_append_both (a v pat : String) (h : endsWithStr a pat) :
    endsWithStr (a ++ v) (pat ++ v) := by
  obtain ⟨t, ht⟩ := h
  exact ⟨t, by rw [strData_append, strData_append, ← ht]; simp⟩

theorem containsStr_of_endsWith (a pat : String) (h : endsWithStr a pat) :
    containsStr a pat := by
  obtain ⟨t, ht⟩ := h
  exact ⟨t, [], by rw [← ht]; simp⟩

theorem strNe_empty_iff (s : String) : s ≠ "" ↔ s.data ≠ [] := by
  constructor
  · intro h hd
    exact h (by cases s; simp_all [String.ext_iff])
  · intro h hd
    exact h (by simp [hd, String.ext_iff])

theorem pathBaseL_ne_nil (l : List Char) : pathBaseL l ≠ [] := by
  by_cases h1 : l = []
  · simp [pathBaseL, h1]
  · simp only [pathBaseL, if_neg h1]
    by_cases h2 : afterLastSlash (dropTrailingSlashes l) = []
    · simp [h2]
    · simp [h2]

theorem pathBase_ne_empty (s : String) : pathBase s ≠ "" := by
  rw [strNe_empty_iff]
  exact pathBaseL_ne_nil s.data

theorem splitLinesL_of_noNl (l : List Char) (h : ∀ c ∈ l, c ≠ '\n') :
    splitLinesL l = [l] := by
  induction l with
  | nil => rfl
  | cons c cs ih =>
    rw [splitLinesL_cons, if_neg (h c (List.mem_cons_self _ _)),
        ih (fun x hx => h x (List.mem_cons_of_mem _ hx))]
    simp

/-! ## Unique colon decomposition (for the inspect-output parser) -/

theorem colon_split_unique :
    ∀ (a₁ b₁ a₂ b₂ : List Char), (∀ c ∈ a₁, c ≠ ':') → (∀ c ∈ a₂, c ≠ ':') →
      a₁ ++ ':' :: b₁ = a₂ ++ ':' :: b₂ → a₁ = a₂ ∧ b₁ = b₂ := by
  intro a₁
  induction a₁ with
  | nil =>
    intro b₁ a₂ b₂ _ h₂ heq
    cases a₂ with
    | nil => simpa using heq
    | cons c a₂' =>
      simp only [List.nil_append, List.cons_append, List.cons.injEq] at heq
      exact absurd heq.1.symm (h₂ c (List.mem_cons_self _ _))
  | cons c a₁' ih =>
    intro b₁ a₂ b₂ h₁ h₂ heq
    cases a₂ with
    | nil =>
      simp only [List.cons_append, List.nil_append, List.cons.injEq] at heq
      exact absurd heq.1 (h₁ c (List.mem_cons_self _ _))
    | cons d a₂' =>
      simp only [List.cons_append, List.cons.injEq] at heq
      have hrec := ih b₁ a₂' b₂ (fun x hx => h₁ x (List.mem_cons_of_mem _ hx))
        (fun x hx => h₂ x (List.mem_cons_of_mem _ hx)) heq.2
      exact ⟨by rw [heq.1, hrec.1], hrec.2⟩

/-- Occurrence of a `"KeyJ: "` marker inside a line `"KeyK: " ++ v` (with
colon-free keys and value) is equivalent to `KeyJ` being a suffix of
`KeyK`. -/
theorem keyline_infix_iff (keyJ keyK v : List Char)
    (hkJ : ∀ c ∈ keyJ, c ≠ ':') (hkK : ∀ c ∈ keyK, c ≠ ':')
    (hv : ∀ c ∈ v, c ≠ ':') :
    (keyJ ++ ':' :: ' ' :: []) <:+: (keyK ++ ':' :: ' ' :: v) ↔
      keyJ <:+ keyK := by
  constructor
  · rintro ⟨x, y, hxy⟩
    have hcnt : (x ++ (keyJ ++ ':' :: ' ' :: []) ++ y).count ':' =
        (keyK ++ ':' :: ' ' :: v).count ':' := by rw [hxy]
    have hKJ0 : keyJ.count ':' = 0 := List.count_eq_zero.mpr (fun hm => hkJ _ hm rfl)
    have hKK0 : keyK.count ':' = 0 := List.count_eq_zero.mpr (fun hm => hkK _ hm rfl)
    have hv0 : v.count ':' = 0 := List.count_eq_zero.mpr (fun hm => hv _ hm rfl)
    simp only [List.count_append, List.count_cons, List.count_nil, hKJ0, hKK0, hv0] at hcnt
    have hx0 : x.count ':' = 0 := by omega
    have hy0 : y.count ':' = 0 := by omega
    have hxfree : ∀ c ∈ x, c ≠ ':' := by
      intro c hc hcc
      subst hcc
      exact absurd hx0 (by simp [List.count_eq_zero, hc])
    have heq2 : (x ++ keyJ) ++ ':' :: (' ' :: y) = keyK ++ ':' :: (' ' :: v) := by
      rw [← hxy]
      simp
    have hres := colon_split_unique (x ++ keyJ) (' ' :: y) keyK (' ' :: v)
      (by
        intro c hc
        rcases List.mem_append.mp hc with h | h
        · exact hxfree c h
        · exact hkJ c h) hkK heq2
    exact ⟨x, hres.1⟩
  · rintro ⟨x, hx⟩
    exact ⟨x, v, by rw [← hx]; simp⟩

/-! ## Sample data shared by concrete evaluations -/

def sampleTags : TemplateTags :=
  { Version := "QQQ1", Tarball := "QQQ3", URL := "QQQ2", Dir := "",
    InstallConffile := "", UninstallConffile := "", Ifnet := "" }

def mkDistro (name : String) : DistroID :=
  { Name := name, Version := "7.7", Codename := "focal" }

def mkData (name model : String) (impl : Option ImplemInfo) : DefFileData :=
  { Path := "/tmp/test.def", DistroID := mkDistro name, MpiImplm := impl,
    Tags := sampleTags,
    InternalEnv := some { SrcDir := "/src", InstallDir := "/install" },
    Model := model }

/-! ## C1 -/

/-- **C1**: the cleanup builder evaluated at the three relevant distro
names.  The source's `addCleanUp` emits the yum-family command for `ubuntu`
and the apt-family command for `centos` — the switch cases are swapped
relative to the claim and to every other family dispatch in this file
(`addDistroInit`, `addDebianDependencies` for ubuntu, `addRPMDependencies`
for centos); an unrecognized name is a silent no-op as claimed. -/
theorem C1_cleanup_swapped :
    addCleanUp (mkData "ubuntu" "" none) = "\tyum clean all\n" ∧
    addCleanUp (mkData "centos" "" none) = "\tapt-get clean\n" ∧
    addCleanUp (mkData "debian" "" none) = "" := by
  refine ⟨?_, ?_, ?_⟩ <;> decide

/-! ## C3 -/

set_option maxRecDepth 4000 in
/-- **C3**: when the host has no usable `ldd` (binary absent, or its run
fails), `GetPackageDependenciesForFile` returns the empty list — its return
type has no error channel, so it cannot fail its caller — and the
dependency-install builder applied to the empty list emits no
`install -y` package-manager line for any distro (only the fixed
symlink/ldconfig entries of the Debian branch). -/
theorem C3_inspector_best_effort (m : LddModule) (host : LddHost)
    (binPath : String) (d : DefFileData)
    (h : host.lddFound = false ∨ host.lddOutput = none) :
    GetPackageDependenciesForFile m host binPath = [] ∧
    ¬ containsStr (addDependencies d []) "install -y" := by
  constructor
  · rcases h with h | h
    · simp [GetPackageDependenciesForFile, h]
    · unfold GetPackageDependenciesForFile
      rw [h]
      cases host.lddFound <;> simp
  · unfold addDependencies
    by_cases h1 : d.DistroID.Name = "centos"
    · rw [if_pos h1]
      decide
    · rw [if_neg h1]
      by_cases h2 : d.DistroID.Name = "ubuntu"
      · rw [if_pos h2]
        decide
      · rw [if_neg h2]
        decide

theorem C3_inspector_best_effort_witness :
    GetPackageDependenciesForFile ⟨fun _ => ["pkg"]⟩ ⟨false, none⟩ "/usr/bin/a" = [] ∧
    ¬ containsStr (addDependencies (mkData "ubuntu" "" none) []) "install -y" :=
  C3_inspector_best_effort ⟨fun _ => ["pkg"]⟩ ⟨false, none⟩ "/usr/bin/a"
    (mkData "ubuntu" "" none) (Or.inl rfl)

/-! ## C5 -/

/-- **C5**: `UpdateDeffileTemplate` returns the single aggregate
`invalid parameter(s)` error whenever the implementation version or URL, the
target path, any of the version/URL/tarball tag names, or the distro name is
empty; and, with those preconditions met, an unrecognized archive suffix of
the URL basename is an error as well.  In the embedding `.error` is by
construction returned before the write-back of the substituted content, so
the template file is unchanged on every error path (the Go function returns
before reaching `ioutil.WriteFile`). -/
theorem C5_template_preconditions (data : DefFileData) (content : String) :
    ((mpiOf data).Version = "" ∨ (mpiOf data).URL = "" ∨ data.Path = "" ∨
        data.Tags.Version = "" ∨ data.Tags.URL = "" ∨ data.Tags.Tarball = "" ∨
        data.DistroID.Name = "" →
      UpdateDeffileTemplate data content = .error "invalid parameter(s)") ∧
    (¬ ((mpiOf data).Version = "" ∨ (mpiOf data).URL = "" ∨ data.Path = "" ∨
        data.Tags.Version = "" ∨ data.Tags.URL = "" ∨ data.Tags.Tarball = "" ∨
        data.DistroID.Name = "") →
      DetectTarballFormat (pathBase (mpiOf data).URL) = TarFormat.Unknown →
      UpdateDeffileTemplate data content =
        .error ("un-supported tarball format for " ++ pathBase (mpiOf data).URL)) := by
  constructor
  · intro h
    unfold UpdateDeffileTemplate
    rw [if_pos h]
  · intro h hfmt
    unfold UpdateDeffileTemplate
    rw [if_neg h]
    simp [hfmt]

theorem C5_template_preconditions_witness :
    UpdateDeffileTemplate (mkData "ubuntu" "" none) "text" =
      .error "invalid parameter(s)" ∧
    UpdateDeffileTemplate
        (mkData "ubuntu" "" (some ⟨"OMPI", "4.0.1", "http://x/foo.zip"⟩)) "text" =
      .error ("un-supported tarball format for " ++ pathBase "http://x/foo.zip") :=
  ⟨(C5_template_preconditions (mkData "ubuntu" "" none) "text").1 (Or.inl rfl),
   (C5_template_preconditions
      (mkData "ubuntu" "" (some ⟨"OMPI", "4.0.1", "http://x/foo.zip"⟩)) "text").2
     (by decide) (by decide)⟩

/-! ## C7 -/

/-- **C7**: the `App_exe` label value emitted by `addLabels`: for the bind
model the emitted line is exactly `\tApp_exe /opt/<BinName>`, and for the
hybrid model with a non-empty configured `BinPath` it is exactly
`\tApp_exe <BinPath>`, the configured path unchanged. -/
theorem C7_app_exe_value (app : AppInfo) (d : DefFileData) :
    (d.Model = BindModel →
      ∃ pre, (addLabels app d).1 =
        pre ++ "\tApp_exe /opt/" ++ app.BinName ++ "\n" ++ "\n") ∧
    (d.Model = HybridModel → app.BinPath ≠ "" →
      ∃ pre, (addLabels app d).1 =
        pre ++ "\tApp_exe " ++ app.BinPath ++ "\n" ++ "\n") := by
  constructor
  · intro h
    unfold addLabels
    dsimp only
    rw [if_pos h]
    exact ⟨_, rfl⟩
  · intro h hbp
    have hnb : d.Model ≠ BindModel := by rw [h]; decide
    unfold addLabels
    dsimp only
    rw [if_neg hnb, if_neg hbp]
    exact ⟨_, rfl⟩

theorem C7_app_exe_value_witness :
    (∃ pre, (addLabels ⟨"app", "a.bin", "/home/u/a", "src.c", ""⟩
        (mkData "ubuntu" BindModel none)).1 =
      pre ++ "\tApp_exe /opt/" ++ "a.bin" ++ "\n" ++ "\n") ∧
    (∃ pre, (addLabels ⟨"app", "a.bin", "/home/u/a", "src.c", ""⟩
        (mkData "ubuntu" HybridModel none)).1 =
      pre ++ "\tApp_exe " ++ "/home/u/a" ++ "\n" ++ "\n") :=
  ⟨(C7_app_exe_value ⟨"app", "a.bin", "/home/u/a", "src.c", ""⟩
      (mkData "ubuntu" BindModel none)).1 rfl,
   (C7_app_exe_value ⟨"app", "a.bin", "/home/u/a", "src.c", ""⟩
      (mkData "ubuntu" HybridModel none)).2 rfl (by decide)⟩

/-! ## C4 -/

theorem not_prefix_append_of_ne_head (pc ac : Char) (pr ar v : List Char)
    (h : pc ≠ ac) : ¬ (pc :: pr <+: (ac :: ar) ++ v) := by
  rw [List.cons_append]
  exact not_prefix_cons_of_ne_head _ _ h

/-- Line decomposition of the bootstrap fragments: a literal head containing
one newline, a newline-free variable part, and a literal tail starting with
a newline. -/
theorem splitLines_three_part (litA : String) (a1 a2 : List Char) (v : String)
    (litB : String) (hA : litA.data = a1 ++ '\n' :: a2)
    (ha1 : ∀ c ∈ a1, c ≠ '\n') (ha2 : ∀ c ∈ a2, c ≠ '\n') (hv : noNl v)
    (h : List Char) (t : List (List Char))
    (hB : splitLinesL litB.data = [] :: h :: t) :
    splitLinesL (litA ++ v ++ litB).data = a1 :: (a2 ++ v.data) :: h :: t := by
  have h1 : splitLinesL (v.data ++ litB.data) = (v.data ++ []) :: h :: t :=
    splitLinesL_append v.data hv _ _ _ hB
  rw [List.append_nil] at h1
  have h2 : splitLinesL (a2 ++ (v.data ++ litB.data)) = (a2 ++ v.data) :: h :: t :=
    splitLinesL_append a2 ha2 _ _ _ h1
  have h3 : splitLinesL ('\n' :: (a2 ++ (v.data ++ litB.data))) =
      [] :: ((a2 ++ v.data) :: h :: t) := by
    rw [splitLinesL_newline, h2]
  have h4 := splitLinesL_append a1 ha1 _ _ _ h3
  rw [List.append_nil] at h4
  rw [strData_append, strData_append, hA]
  simp only [List.append_assoc, List.cons_append] at h4 ⊢
  exact h4

/-- **C4**: the bootstrap decision order.  A non-empty registry URL always
wins and yields a library bootstrap; otherwise ubuntu gets a debootstrap
bootstrap pinned to the codename with the fixed mirror, centos gets a yum
bootstrap when privileged and a docker bootstrap when unprivileged, and any
other name is an unsupported-distro error with nothing written (`.error`
carries no fragment).  Each successful fragment has exactly one line
starting `Bootstrap:` and exactly one `From:`/`OSVersion:` line matching the
strategy (given newline-free identity fields). -/
theorem C4_bootstrap_decision (libraryURL : String) (d : DefFileData)
    (cfg : SysConfig) (hURL : noNl libraryURL) (hName : noNl d.DistroID.Name)
    (hVer : noNl d.DistroID.Version) (hCode : noNl d.DistroID.Codename) :
    (libraryURL ≠ "" →
      AddBootstrap libraryURL d cfg =
        .ok ("Bootstrap: library\nFrom: " ++ libraryURL ++ "\n\n") ∧
      countLinesWithPre ("Bootstrap: library\nFrom: " ++ libraryURL ++ "\n\n")
        "Bootstrap:" = 1 ∧
      countLinesWithPre ("Bootstrap: library\nFrom: " ++ libraryURL ++ "\n\n")
        "From:" = 1 ∧
      countLinesWithPre ("Bootstrap: library\nFrom: " ++ libraryURL ++ "\n\n")
        "OSVersion:" = 0) ∧
    (libraryURL = "" → d.DistroID.Name = "ubuntu" →
      AddBootstrap libraryURL d cfg =
        .ok ("Bootstrap: debootstrap\nOSVersion: " ++ d.DistroID.Codename ++
          "\nMirrorURL: http://us.archive.ubuntu.com/ubuntu/\n\n") ∧
      countLinesWithPre ("Bootstrap: debootstrap\nOSVersion: " ++ d.DistroID.Codename ++
        "\nMirrorURL: http://us.archive.ubuntu.com/ubuntu/\n\n") "Bootstrap:" = 1 ∧
      countLinesWithPre ("Bootstrap: debootstrap\nOSVersion: " ++ d.DistroID.Codename ++
        "\nMirrorURL: http://us.archive.ubuntu.com/ubuntu/\n\n") "OSVersion:" = 1 ∧
      countLinesWithPre ("Bootstrap: debootstrap\nOSVersion: " ++ d.DistroID.Codename ++
        "\nMirrorURL: http://us.archive.ubuntu.com/ubuntu/\n\n") "From:" = 0) ∧
    (libraryURL = "" → d.DistroID.Name = "centos" → cfg.Nopriv = false →
      AddBootstrap libraryURL d cfg =
        .ok ("Bootstrap: yum\nOSVersion: " ++ d.DistroID.Version ++
          "\nMirrorURL: http://mirror.centos.org/centos-%\x7bOSVERSION\x7d/%\x7bOSVERSION\x7d/os/$basearch/\nInclude: yum\n\n") ∧
      countLinesWithPre ("Bootstrap: yum\nOSVersion: " ++ d.DistroID.Version ++
        "\nMirrorURL: http://mirror.centos.org/centos-%\x7bOSVERSION\x7d/%\x7bOSVERSION\x7d/os/$basearch/\nInclude: yum\n\n") "Bootstrap:" = 1 ∧
      countLinesWithPre ("Bootstrap: yum\nOSVersion: " ++ d.DistroID.Version ++
        "\nMirrorURL: http://mirror.centos.org/centos-%\x7bOSVERSION\x7d/%\x7bOSVERSION\x7d/os/$basearch/\nInclude: yum\n\n") "OSVersion:" = 1 ∧
      countLinesWithPre ("Bootstrap: yum\nOSVersion: " ++ d.DistroID.Version ++
        "\nMirrorURL: http://mirror.centos.org/centos-%\x7bOSVERSION\x7d/%\x7bOSVERSION\x7d/os/$basearch/\nInclude: yum\n\n") "From:" = 0) ∧
    (libraryURL = "" → d.DistroID.Name = "centos" → cfg.Nopriv = true →
      AddBootstrap libraryURL d cfg =
        .ok ("Bootstrap: docker\nFrom: " ++ d.DistroID.Name ++ "\n\n") ∧
      countLinesWithPre ("Bootstrap: docker\nFrom: " ++ d.DistroID.Name ++ "\n\n")
        "Bootstrap:" = 1 ∧
      countLinesWithPre ("Bootstrap: docker\nFrom: " ++ d.DistroID.Name ++ "\n\n")
        "From:" = 1 ∧
      countLinesWithPre ("Bootstrap: docker\nFrom: " ++ d.DistroID.Name ++ "\n\n")
        "OSVersion:" = 0) ∧
    (libraryURL = "" → d.DistroID.Name ≠ "ubuntu" → d.DistroID.Name ≠ "centos" →
      AddBootstrap libraryURL d cfg =
        .error ("unsupported distro: " ++ d.DistroID.Name)) := by
  refine ⟨?_, ?_, ?_, ?_, ?_⟩
  · intro h
    have hlines := splitLines_three_part "Bootstrap: library\nFrom: "
      ("Bootstrap: library" : String).data ("From: " : String).data libraryURL "\n\n"
      (by decide) (by decide) (by decide) hURL [] [[]] (by decide)
    refine ⟨by unfold AddBootstrap; rw [if_pos h], ?_, ?_, ?_⟩
    · have np1 : ¬ (("Bootstrap:" : String).data <+:
          ("From: " : String).data ++ libraryURL.data) := by
        rw [show ("From: " : String).data = 'F' :: ("rom: " : String).data from rfl,
            List.cons_append]
        exact not_prefix_cons_of_ne_head _ _ (by decide)
      unfold countLinesWithPre
      rw [hlines]
      simp [List.countP_cons, List.countP_nil, decide_eq_true_eq, np1]
    · have hp : (("From:" : String).data <+:
          ("From: " : String).data ++ libraryURL.data) :=
        prefix_append_right _ (by decide)
      unfold countLinesWithPre
      rw [hlines]
      simp [List.countP_cons, List.countP_nil, decide_eq_true_eq, hp]
    · have np1 : ¬ (("OSVersion:" : String).data <+:
          ("From: " : String).data ++ libraryURL.data) := by
        rw [show ("From: " : String).data = 'F' :: ("rom: " : String).data from rfl,
            List.cons_append]
        exact not_prefix_cons_of_ne_head _ _ (by decide)
      unfold countLinesWithPre
      rw [hlines]
      simp [List.countP_cons, List.countP_nil, decide_eq_true_eq, np1]
  · intro h0 hn
    have hlines := splitLines_three_part "Bootstrap: debootstrap\nOSVersion: "
      ("Bootstrap: debootstrap" : String).data ("OSVersion: " : String).data
      d.DistroID.Codename "\nMirrorURL: http://us.archive.ubuntu.com/ubuntu/\n\n"
      (by decide) (by decide) (by decide) hCode
      ("MirrorURL: http://us.archive.ubuntu.com/ubuntu/" : String).data [[], []]
      (by decide)
    have hnolib : ¬ (libraryURL ≠ "") := by simp [h0]
    refine ⟨by unfold AddBootstrap; rw [if_neg hnolib, if_pos hn]; rfl, ?_, ?_, ?_⟩
    · have np1 : ¬ (("Bootstrap:" : String).data <+:
          ("OSVersion: " : String).data ++ d.DistroID.Codename.data) := by
        rw [show ("OSVersion: " : String).data = 'O' :: ("SVersion: " : String).data from rfl,
            List.cons_append]
        exact not_prefix_cons_of_ne_head _ _ (by decide)
      unfold countLinesWithPre
      rw [hlines]
      simp [List.countP_cons, List.countP_nil, decide_eq_true_eq, np1]
    · have hp : (("OSVersion:" : String).data <+:
          ("OSVersion: " : String).data ++ d.DistroID.Codename.data) :=
        prefix_append_right _ (by decide)
      unfold countLinesWithPre
      rw [hlines]
      simp [List.countP_cons, List.countP_nil, decide_eq_true_eq, hp]
    · have np1 : ¬ (("From:" : String).data <+:
          ("OSVersion: " : String).data ++ d.DistroID.Codename.data) := by
        rw [show ("OSVersion: " : String).data = 'O' :: ("SVersion: " : String).data from rfl,
            List.cons_append]
        exact not_prefix_cons_of_ne_head _ _ (by decide)
      unfold countLinesWithPre
      rw [hlines]
      simp [List.countP_cons, List.countP_nil, decide_eq_true_eq, np1]
  · intro h0 hn hpriv
    have hlines := splitLines_three_part "Bootstrap: yum\nOSVersion: "
      ("Bootstrap: yum" : String).data ("OSVersion: " : String).data
      d.DistroID.Version
      "\nMirrorURL: http://mirror.centos.org/centos-%\x7bOSVERSION\x7d/%\x7bOSVERSION\x7d/os/$basearch/\nInclude: yum\n\n"
      (by decide) (by decide) (by decide) hVer
      ("MirrorURL: http://mirror.centos.org/centos-%\x7bOSVERSION\x7d/%\x7bOSVERSION\x7d/os/$basearch/" : String).data
      [("Include: yum" : String).data, [], []] (by decide)
    have hnolib : ¬ (libraryURL ≠ "") := by simp [h0]
    have hnu : d.DistroID.Name ≠ "ubuntu" := by rw [hn]; decide
    refine ⟨by
      unfold AddBootstrap
      rw [if_neg hnolib, if_neg hnu, if_pos hn, hpriv]
      rfl, ?_, ?_, ?_⟩
    · have np1 : ¬ (("Bootstrap:" : String).data <+:
          ("OSVersion: " : String).data ++ d.DistroID.Version.data) := by
        rw [show ("OSVersion: " : String).data = 'O' :: ("SVersion: " : String).data from rfl,
            List.cons_append]
        exact not_prefix_cons_of_ne_head _ _ (by decide)
      unfold countLinesWithPre
      rw [hlines]
      simp [List.countP_cons, List.countP_nil, decide_eq_true_eq, np1]
    · have hp : (("OSVersion:" : String).data <+:
          ("OSVersion: " : String).data ++ d.DistroID.Version.data) :=
        prefix_append_right _ (by decide)
      unfold countLinesWithPre
      rw [hlines]
      simp [List.countP_cons, List.countP_nil, decide_eq_true_eq, hp]
    · have np1 : ¬ (("From:" : String).data <+:
          ("OSVersion: " : String).data ++ d.DistroID.Version.data) := by
        rw [show ("OSVersion: " : String).data = 'O' :: ("SVersion: " : String).data from rfl,
            List.cons_append]
        exact not_prefix_cons_of_ne_head _ _ (by decide)
      unfold countLinesWithPre
      rw [hlines]
      simp [List.countP_cons, List.countP_nil, decide_eq_true_eq, np1]
  · intro h0 hn hnopriv
    have hlines := splitLines_three_part "Bootstrap: docker\nFrom: "
      ("Bootstrap: docker" : String).data ("From: " : String).data
      d.DistroID.Name "\n\n" (by decide) (by decide) (by decide) hName [] [[]]
      (by decide)
    have hnolib : ¬ (libraryURL ≠ "") := by simp [h0]
    have hnu : d.DistroID.Name ≠ "ubuntu" := by rw [hn]; decide
    refine ⟨by
      unfold AddBootstrap
      rw [if_neg hnolib, if_neg hnu, if_pos hn, hnopriv]
      rfl, ?_, ?_, ?_⟩
    · have np1 : ¬ (("Bootstrap:" : String).data <+:
          ("From: " : String).data ++ d.DistroID.Name.data) := by
        rw [show ("From: " : String).data = 'F' :: ("rom: " : String).data from rfl,
            List.cons_append]
        exact not_prefix_cons_of_ne_head _ _ (by decide)
      unfold countLinesWithPre
      rw [hlines]
      simp [List.countP_cons, List.countP_nil, decide_eq_true_eq, np1]
    · have hp : (("From:" : String).data <+:
          ("From: " : String).data ++ d.DistroID.Name.data) :=
        prefix_append_right _ (by decide)
      unfold countLinesWithPre
      rw [hlines]
      simp [List.countP_cons, List.countP_nil, decide_eq_true_eq, hp]
    · have np1 : ¬ (("OSVersion:" : String).data <+:
          ("From: " : String).data ++ d.DistroID.Name.data) := by
        rw [show ("From: " : String).data = 'F' :: ("rom: " : String).data from rfl,
            List.cons_append]
        exact not_prefix_cons_of_ne_head _ _ (by decide)
      unfold countLinesWithPre
      rw [hlines]
      simp [List.countP_cons, List.countP_nil, decide_eq_true_eq, np1]
  · intro h0 hnu hnc
    have hnolib : ¬ (libraryURL ≠ "") := by simp [h0]
    unfold AddBootstrap
    rw [if_neg hnolib, if_neg hnu, if_neg hnc]

theorem C4_bootstrap_decision_witness :
    (AddBootstrap "library://u/img" (mkData "centos" "" none) ⟨false, false⟩ =
      .ok ("Bootstrap: library\nFrom: " ++ "library://u/img" ++ "\n\n") ∧
     countLinesWithPre ("Bootstrap: library\nFrom: " ++ "library://u/img" ++ "\n\n")
       "Bootstrap:" = 1) ∧
    (AddBootstrap "" (mkData "ubuntu" "" none) ⟨false, false⟩ =
      .ok ("Bootstrap: debootstrap\nOSVersion: " ++
        (mkData "ubuntu" "" none).DistroID.Codename ++
        "\nMirrorURL: http://us.archive.ubuntu.com/ubuntu/\n\n")) ∧
    (AddBootstrap "" (mkData "sles" "" none) ⟨false, false⟩ =
      .error ("unsupported distro: " ++ (mkData "sles" "" none).DistroID.Name)) := by
  have h1 := C4_bootstrap_decision "library://u/img" (mkData "centos" "" none)
    ⟨false, false⟩ (by decide) (by decide) (by decide) (by decide)
  have h2 := C4_bootstrap_decision "" (mkData "ubuntu" "" none)
    ⟨false, false⟩ (by decide) (by decide) (by decide) (by decide)
  have h3 := C4_bootstrap_decision "" (mkData "sles" "" none)
    ⟨false, false⟩ (by decide) (by decide) (by decide) (by decide)
  exact ⟨⟨(h1.1 (by decide)).1, (h1.1 (by decide)).2.1⟩,
         (h2.2.1 rfl rfl).1,
         h3.2.2.2.2 rfl (by decide) (by decide)⟩

/-! ## C8 -/

/-- **C8**, counterexample: a bare (scheme-less) file reference whose name
carries a recognized archive suffix.  `/tmp/app.tar.gz` is classified as a
bare file reference, yet the hybrid files section emits only the `%files`
header and does not stage the source — so "staged if and only if the source
is a bare file reference" fails in the "if" direction. -/
theorem C8_counterexample :
    DetectURLType "/tmp/app.tar.gz" = URLType.File ∧
    createFilesSection ⟨"app", "a", "", "/tmp/app.tar.gz", ""⟩
      (mkData "ubuntu" HybridModel none) = "%files\n" ∧
    ¬ containsStr (createFilesSection ⟨"app", "a", "", "/tmp/app.tar.gz", ""⟩
      (mkData "ubuntu" HybridModel none)) "/tmp/app.tar.gz" := by
  refine ⟨by decide, by decide, by decide⟩

/-- **C8** (amended): in the hybrid assembly (the `%files` fragment guarded
by `DetectURLType = FileURL` exactly as in `CreateHybridDefFile`), the
source is staged iff it is a bare file reference **and** its name is not a
recognized tarball; a bare tarball-named source yields only the `%files`
header, and git/http sources yield no files fragment at all. -/
theorem C8_files_staging (app : AppInfo) (d : DefFileData)
    (hm : d.Model = HybridModel) :
    (DetectURLType app.Source = URLType.File →
      DetectTarballFormat app.Source = TarFormat.Unknown →
      (if DetectURLType app.Source = URLType.File then
        createFilesSection app d else "") =
        "%files\n" ++ ("\t" ++ replaceFirstStr app.Source "file://" "" ++ " /opt\n\n")) ∧
    (DetectURLType app.Source = URLType.File →
      DetectTarballFormat app.Source ≠ TarFormat.Unknown →
      (if DetectURLType app.Source = URLType.File then
        createFilesSection app d else "") = "%files\n") ∧
    (DetectURLType app.Source ≠ URLType.File →
      (if DetectURLType app.Source = URLType.File then
        createFilesSection app d else "") = "") := by
  have hnb : d.Model ≠ BindModel := by rw [hm]; decide
  refine ⟨?_, ?_, ?_⟩
  · intro hf hu
    rw [if_pos hf]
    unfold createFilesSection
    rw [if_neg hnb, if_pos hm, if_pos hu]
  · intro hf hu
    rw [if_pos hf]
    unfold createFilesSection
    rw [if_neg hnb, if_pos hm, if_neg hu]
    decide
  · intro hf
    rw [if_neg hf]

theorem C8_files_staging_witness :
    (if DetectURLType "/home/u/mpitest.c" = URLType.File then
      createFilesSection ⟨"app", "a", "", "/home/u/mpitest.c", ""⟩
        (mkData "ubuntu" HybridModel none) else "") =
      "%files\n" ++ ("\t" ++ replaceFirstStr "/home/u/mpitest.c" "file://" "" ++ " /opt\n\n") ∧
    (if DetectURLType "http://x/a.tar.gz" = URLType.File then
      createFilesSection ⟨"app", "a", "", "http://x/a.tar.gz", ""⟩
        (mkData "ubuntu" HybridModel none) else "") = "" :=
  ⟨(C8_files_staging ⟨"app", "a", "", "/home/u/mpitest.c", ""⟩
      (mkData "ubuntu" HybridModel none) rfl).1 (by decide) (by decide),
   (C8_files_staging ⟨"app", "a", "", "http://x/a.tar.gz", ""⟩
      (mkData "ubuntu" HybridModel none) rfl).2.2 (by decide)⟩

/-! ## C10 -/

theorem addLabels_snd_fields (app : AppInfo) (d : DefFileData) :
    ((addLabels app d).2).Source = app.Source ∧
    ((addLabels app d).2).BinName = app.BinName ∧
    ((addLabels app d).2).InstallCmd = app.InstallCmd := by
  unfold addLabels
  dsimp only
  by_cases h1 : d.Model = BindModel
  · rw [if_pos h1]
    exact ⟨rfl, rfl, rfl⟩
  · rw [if_neg h1]
    by_cases h2 : app.BinPath = ""
    · rw [if_pos h2]
      exact ⟨rfl, rfl, rfl⟩
    · rw [if_neg h2]
      exact ⟨rfl, rfl, rfl⟩

theorem addLabels_binPath_ne (app : AppInfo) (d : DefFileData)
    (hnb : d.Model ≠ BindModel) : ((addLabels app d).2).BinPath ≠ "" := by
  unfold addLabels
  dsimp only
  rw [if_neg hnb]
  by_cases hbp : app.BinPath = ""
  · rw [if_pos hbp]
    show ("/opt/" ++ app.BinName) ≠ ""
    rw [strNe_empty_iff, strData_append]
    simp
  · rw [if_neg hbp]
    exact hbp

theorem addAppInstall_file_mpicc (a : AppInfo) (d : DefFileData)
    (hfile : DetectURLType a.Source = URLType.File) (hbp : a.BinPath ≠ "") :
    addAppInstall a d =
      .ok ("\tcd /opt/$APPDIR && mpicc -o " ++ a.BinPath ++ " "
        ++ filepathJoin (envOf d).SrcDir (pathBase a.Source) ++ "\n"
        ++ "\tcd /opt && ln -s $APPDIR/" ++ a.BinName ++ " " ++ a.BinName
        ++ " 2> /dev/null || true\n\n") := by
  unfold addAppInstall
  simp only [hfile]
  rw [if_pos hbp]

/-- **C10**: the labels builder's mutation of the shared app descriptor:
for a non-bind model and empty `BinPath` it permanently sets
`BinPath = /opt/<BinName>`; consequently, in the hybrid assembly the app
record handed to the app-install builder always has a non-empty `BinPath`,
so the bare-file branch always emits the direct `mpicc` compilation
(never the configured install command, never the cannot-compile error), and
every successful hybrid assembly output contains the `mpicc` line. -/
theorem C10_binpath_mutation (app : AppInfo) (d : DefFileData) :
    (d.Model ≠ BindModel → app.BinPath = "" →
      ((addLabels app d).2).BinPath = "/opt/" ++ app.BinName) ∧
    (d.Model ≠ BindModel → DetectURLType app.Source = URLType.File →
      ((addLabels app d).2).BinPath ≠ "" ∧
      addAppInstall (addLabels app d).2 d =
        .ok ("\tcd /opt/$APPDIR && mpicc -o " ++ ((addLabels app d).2).BinPath ++ " "
          ++ filepathJoin (envOf d).SrcDir (pathBase app.Source) ++ "\n"
          ++ "\tcd /opt && ln -s $APPDIR/" ++ app.BinName ++ " " ++ app.BinName
          ++ " 2> /dev/null || true\n\n")) ∧
    (d.Model = HybridModel → DetectURLType app.Source = URLType.File →
      ∀ lib cfg out, CreateHybridDefFile lib app d cfg = .ok out →
        containsStr out "mpicc -o ") := by
  refine ⟨?_, ?_, ?_⟩
  · intro hnb hbp
    unfold addLabels
    dsimp only
    rw [if_neg hnb, if_pos hbp]
  · intro hnb hfile
    have hflds := addLabels_snd_fields app d
    have hne := addLabels_binPath_ne app d hnb
    have hinst := addAppInstall_file_mpicc (addLabels app d).2 d
      (by rw [hflds.1]; exact hfile) hne
    rw [hflds.1, hflds.2.1] at hinst
    exact ⟨hne, hinst⟩
  · intro hm hfile lib cfg out hok
    have hnb : d.Model ≠ BindModel := by rw [hm]; decide
    have hflds := addLabels_snd_fields app d
    have hne := addLabels_binPath_ne app d hnb
    have hinst := addAppInstall_file_mpicc (addLabels app d).2 d
      (by rw [hflds.1]; exact hfile) hne
    unfold CreateHybridDefFile at hok
    by_cases hp : d.Path = ""
    · rw [if_pos hp] at hok
      exact Except.noConfusion hok
    · rw [if_neg hp] at hok
      cases hb : AddBootstrap lib d cfg with
      | error e =>
        rw [hb] at hok
        exact Except.noConfusion hok
      | ok boot =>
        rw [hb] at hok
        dsimp only at hok
        rw [hinst] at hok
        dsimp only at hok
        injection hok with hout
        subst hout
        apply containsStr_append_left
        apply containsStr_append_right
        repeat apply containsStr_append_left
        exact containsStr_of_endsWith _ _ (by decide)

theorem C10_binpath_mutation_witness :
    ((addLabels ⟨"mpitest", "mpitest", "", "/home/u/mpitest.c", ""⟩
        (mkData "ubuntu" HybridModel (some ⟨"OMPI", "4.0.1", "http://x/a.tar.gz"⟩))).2).BinPath =
      "/opt/" ++ "mpitest" ∧
    (∀ out, CreateHybridDefFile ""
        ⟨"mpitest", "mpitest", "", "/home/u/mpitest.c", ""⟩
        (mkData "ubuntu" HybridModel (some ⟨"OMPI", "4.0.1", "http://x/a.tar.gz"⟩))
        ⟨false, false⟩ = .ok out →
      containsStr out "mpicc -o ") := by
  refine ⟨?_, ?_⟩
  · exact (C10_binpath_mutation ⟨"mpitest", "mpitest", "", "/home/u/mpitest.c", ""⟩
      (mkData "ubuntu" HybridModel (some ⟨"OMPI", "4.0.1", "http://x/a.tar.gz"⟩))).1
      (by decide) rfl
  · intro out hok
    exact (C10_binpath_mutation ⟨"mpitest", "mpitest", "", "/home/u/mpitest.c", ""⟩
      (mkData "ubuntu" HybridModel (some ⟨"OMPI", "4.0.1", "http://x/a.tar.gz"⟩))).2.2
      rfl (by decide) "" ⟨false, false⟩ out hok

/-! ## C2 -/

set_option maxRecDepth 10000 in
/-- **C2**, counterexample: an implementation URL (resp. app source) whose
basename has an unrecognized archive suffix.  The claimed hard error does
not happen in either builder — neither `AddMPIInstall` nor the http branch
of `addAppDownload` has an error path for the suffix sniff (their Go
originals return errors only for file writes); both emit the extraction
command with an empty flag, `tar  foo.zip`. -/
theorem C2_counterexample :
    containsStr (AddMPIInstall (mkData "ubuntu" HybridModel
      (some ⟨"OMPI", "4.0.1", "http://x/foo.zip"⟩))) "&& tar  foo.zip" ∧
    containsStr (addAppDownload ⟨"app", "a", "", "http://x/foo.zip", ""⟩
      (mkData "ubuntu" HybridModel none)) "&& tar  foo.zip" := by
  exact ⟨by decide, by decide⟩

theorem not_suffix_of_suffix (s p q : List Char) (hps : p <:+ s)
    (hp : p ≠ []) (hq : q ≠ []) (hne : p.reverse.head? ≠ q.reverse.head?) :
    ¬ q <:+ s := by
  intro hqs
  have h1 : p.reverse <+: s.reverse := List.reverse_prefix.mpr hps
  have h2 : q.reverse <+: s.reverse := List.reverse_prefix.mpr hqs
  have hpr : p.reverse ≠ [] := by simpa using hp
  have hqr : q.reverse ≠ [] := by simpa using hq
  obtain ⟨pc, pr, hpc⟩ := List.exists_cons_of_ne_nil hpr
  obtain ⟨qc, qr, hqc⟩ := List.exists_cons_of_ne_nil hqr
  rw [hpc] at h1
  rw [hqc] at h2
  cases hs : s.reverse with
  | nil =>
    rw [hs] at h1
    exact absurd (List.prefix_nil.mp h1) (by simp)
  | cons c cs =>
    rw [hs] at h1 h2
    rw [List.cons_prefix_cons] at h1 h2
    apply hne
    rw [hpc, hqc]
    simp [h1.1, h2.1]

/-- **C2** (amended): both builders splice the sniffed extraction flag into
the emitted `tar` command — `AddMPIInstall` sniffing the URL basename and
the http branch of `addAppDownload` sniffing the source URL itself —
with the bzip2/gzip/plain flags for the recognized suffixes; an
unrecognized suffix is **not** an error in these two builders: the flag is
the empty string and the command is still emitted (only the template
processor hard-errors on it, see `C5_template_preconditions`). -/
theorem C2_tar_flag (d : DefFileData) (app : AppInfo) (name : String)
    (hhttp : DetectURLType app.Source = URLType.Http) :
    containsStr (AddMPIInstall d)
      ("tar " ++ GetTarArgs (DetectTarballFormat (pathBase (mpiOf d).URL))
        ++ " " ++ pathBase (mpiOf d).URL) ∧
    containsStr (addAppDownload app d)
      ("tar " ++ GetTarArgs (DetectTarballFormat app.Source)
        ++ " " ++ pathBase app.Source) ∧
    (endsWithStr name ".tar.bz2" → GetTarArgs (DetectTarballFormat name) = "-xjf") ∧
    (endsWithStr name ".tar.gz" → GetTarArgs (DetectTarballFormat name) = "-xzf") ∧
    (endsWithStr name ".tgz" → GetTarArgs (DetectTarballFormat name) = "-xzf") ∧
    (endsWithStr name ".tar" → GetTarArgs (DetectTarballFormat name) = "-xf") ∧
    GetTarArgs TarFormat.Unknown = "" := by
  refine ⟨?_, ?_, ?_, ?_, ?_, ?_, rfl⟩
  · unfold AddMPIInstall
    dsimp only
    apply containsStr_append_left
    apply containsStr_append_left
    apply containsStr_append_left
    apply containsStr_append_left
    apply containsStr_append_left
    apply containsStr_of_endsWith
    apply endsWithStr_append_both
    apply endsWithStr_append_both
    apply endsWithStr_append_both
    apply endsWithStr_append_right
    decide
  · unfold addAppDownload
    simp only [hhttp]
    apply containsStr_append_left
    apply containsStr_append_left
    apply containsStr_of_endsWith
    apply endsWithStr_append_both
    apply endsWithStr_append_both
    apply endsWithStr_append_both
    apply endsWithStr_append_right
    decide
  · intro h
    unfold DetectTarballFormat
    rw [if_pos h]
    rfl
  · intro h
    have hnb : ¬ endsWithStr name ".tar.bz2" :=
      not_suffix_of_suffix name.data (".tar.gz" : String).data
        (".tar.bz2" : String).data h (by decide) (by decide) (by decide)
    unfold DetectTarballFormat
    rw [if_neg hnb, if_pos h]
    rfl
  · intro h
    have hnb : ¬ endsWithStr name ".tar.bz2" :=
      not_suffix_of_suffix name.data (".tgz" : String).data
        (".tar.bz2" : String).data h (by decide) (by decide) (by decide)
    unfold DetectTarballFormat
    rw [if_neg hnb]
    by_cases hgz : endsWithStr name ".tar.gz"
    · rw [if_pos hgz]
      rfl
    · rw [if_neg hgz, if_pos h]
      rfl
  · intro h
    have hnb : ¬ endsWithStr name ".tar.bz2" :=
      not_suffix_of_suffix name.data (".tar" : String).data
        (".tar.bz2" : String).data h (by decide) (by decide) (by decide)
    have hng : ¬ endsWithStr name ".tar.gz" :=
      not_suffix_of_suffix name.data (".tar" : String).data
        (".tar.gz" : String).data h (by decide) (by decide) (by decide)
    have hnt : ¬ endsWithStr name ".tgz" :=
      not_suffix_of_suffix name.data (".tar" : String).data
        (".tgz" : String).data h (by decide) (by decide) (by decide)
    unfold DetectTarballFormat
    rw [if_neg hnb, if_neg hng, if_neg hnt, if_pos h]
    rfl

theorem C2_tar_flag_witness :
    containsStr (AddMPIInstall (mkData "ubuntu" HybridModel
        (some ⟨"OMPI", "4.0.1", "http://x/ompi-4.0.1.tar.bz2"⟩)))
      ("tar " ++ GetTarArgs (DetectTarballFormat (pathBase "http://x/ompi-4.0.1.tar.bz2"))
        ++ " " ++ pathBase "http://x/ompi-4.0.1.tar.bz2") ∧
    containsStr (addAppDownload ⟨"app", "a", "", "http://x/app.tgz", ""⟩
        (mkData "ubuntu" HybridModel none))
      ("tar " ++ GetTarArgs (DetectTarballFormat "http://x/app.tgz")
        ++ " " ++ pathBase "http://x/app.tgz") ∧
    GetTarArgs (DetectTarballFormat "ompi-4.0.1.tar.bz2") = "-xjf" := by
  have h := C2_tar_flag (mkData "ubuntu" HybridModel
      (some ⟨"OMPI", "4.0.1", "http://x/ompi-4.0.1.tar.bz2"⟩))
    ⟨"app", "a", "", "http://x/app.tgz", ""⟩ "ompi-4.0.1.tar.bz2" (by decide)
  exact ⟨h.1, h.2.1, h.2.2.1 (by decide)⟩

/-! ## C6 -/

/-- **C6**, counterexample: a replacement value may re-introduce tag text.
With version tag `V` and implementation version `VV`, one successful
application of the template processor maps template `"V"` to `"VV"`, in
which the configured version tag still occurs. -/
theorem C6_counterexample :
    UpdateDeffileTemplate
      { Path := "/tmp/t.def", DistroID := ⟨"ubuntu", "7", "c"⟩,
        MpiImplm := some ⟨"OMPI", "VV", "http://x/a.tar"⟩,
        Tags := ⟨"V", "T", "U", "", "", "", ""⟩,
        InternalEnv := none, Model := "" } "V" = .ok "VV" ∧
    containsStr "VV" "V" :=
  ⟨by rfl, by decide⟩

theorem remove_pass (old new : String) (hold : old ≠ "") (hnew : new ≠ "")
    (hdisj : ∀ c ∈ new.data, c ∉ old.data) (s : String) :
    ¬ containsStr (replaceAllStr s old new) old :=
  not_infix_replaceAllL old.data new.data ((strNe_empty_iff old).mp hold)
    ((strNe_empty_iff new).mp hnew) hdisj s.data

theorem preserve_pass (old new pat : String) (hnew : new ≠ "") (hpat : pat ≠ "")
    (hdisj : ∀ c ∈ new.data, c ∉ pat.data) (s : String)
    (h : ¬ containsStr s pat) : ¬ containsStr (replaceAllStr s old new) pat :=
  replaceAllL_keeps_no_occurrence old.data new.data pat.data
    ((strNe_empty_iff new).mp hnew) ((strNe_empty_iff pat).mp hpat) hdisj s.data h

theorem noop_pass (old new s : String) (h : ¬ containsStr s old) :
    replaceAllStr s old new = s := by
  unfold replaceAllStr
  rw [replaceAllL_no_occurrence _ _ _ h]

/-- `s.dropLast` on strings (the string without its last character). -/
def dropLastStr (s : String) : String := ⟨s.data.dropLast⟩

/-- Replacing the designated occurrence in a context: if no occurrence of
the pattern starts inside `a` (equivalently, none occurs in
`a ++ old.dropLast`) and none occurs in `b`, the scanner keeps `a` and `b`
byte-for-byte and replaces exactly the middle occurrence. -/
theorem replaceFuel_context (old new : List Char) (hold : old ≠ []) :
    ∀ (fuel : Nat) (a b : List Char), (a ++ old ++ b).length ≤ fuel →
      ¬ old <:+: a ++ old.dropLast → ¬ old <:+: b →
      replaceFuel old new fuel (a ++ old ++ b) = a ++ new ++ b := by
  intro fuel
  induction fuel with
  | zero =>
    intro a b hlen _ _
    exfalso
    have h1 : 0 < old.length := List.length_pos.mpr hold
    simp only [List.length_append] at hlen
    omega
  | succ n ih =>
    intro a b hlen hleft hb
    cases a with
    | nil =>
      obtain ⟨oc, old', rfl⟩ := List.exists_cons_of_ne_nil hold
      simp only [List.nil_append]
      rw [List.cons_append, replaceFuel_succ_cons, if_pos
        ⟨List.cons_ne_nil _ _, by rw [← List.cons_append]; exact List.prefix_append _ _⟩]
      rw [show (oc :: (old' ++ b)).drop (oc :: old').length = b from by
        rw [List.length_cons, List.drop_succ_cons, List.drop_left]]
      rw [replaceFuel_no_occurrence _ _ _ _ hb]
    | cons c a' =>
      rw [show (c :: a') ++ old ++ b = c :: (a' ++ old ++ b) from by simp]
      have hguardfalse : ¬ (old ≠ [] ∧ old <+: (c :: (a' ++ old ++ b))) := by
        rintro ⟨-, hpre⟩
        apply hleft
        have hdp : (c :: a') ++ old.dropLast <+: c :: (a' ++ old ++ b) := by
          refine ⟨[old.getLast hold] ++ b, ?_⟩
          simp only [List.cons_append, List.append_assoc, List.cons.injEq,
            true_and, List.nil_append]
          rw [List.append_cons old.dropLast (old.getLast hold) b,
              List.dropLast_append_getLast hold]
        have hpre' : old <+: c :: (a' ++ old ++ b) := hpre
        have hlenle : old.length ≤ ((c :: a') ++ old.dropLast).length := by
          have h1 : 0 < old.length := List.length_pos.mpr hold
          simp only [List.length_append, List.length_cons, List.length_dropLast]
          omega
        exact (List.prefix_of_prefix_length_le hpre' hdp hlenle).isInfix
      rw [replaceFuel_succ_cons, if_neg hguardfalse]
      rw [ih a' b
        (by simp only [List.length_append, List.length_cons] at hlen ⊢; omega)
        (fun hx => hleft (by rw [List.cons_append]; exact List.infix_cons hx)) hb]
      simp

theorem replaceAllStr_context (a old b new : String) (hold : old ≠ "")
    (hLeft : ¬ containsStr (a ++ dropLastStr old) old)
    (hb : ¬ containsStr b old) :
    replaceAllStr (a ++ old ++ b) old new = a ++ new ++ b := by
  have hc : (a ++ old ++ b).data = a.data ++ old.data ++ b.data := by
    rw [strData_append, strData_append]
  have hL : ¬ old.data <:+: a.data ++ old.data.dropLast := by
    have hd : (a ++ dropLastStr old).data = a.data ++ old.data.dropLast :=
      strData_append _ _
    rw [← hd]
    exact hLeft
  unfold replaceAllStr replaceAllL
  rw [hc, replaceFuel_context old.data new.data ((strNe_empty_iff old).mp hold)
    _ a.data b.data (Nat.le_refl _) hL hb]
  have he : (a ++ new ++ b).data = a.data ++ new.data ++ b.data := by
    rw [strData_append, strData_append]
  rw [← he]

/-- An occurrence of `pat` in `a ++ m ++ b` that cannot touch `m` (no
character of the non-empty middle block belongs to `pat`) lies entirely in
`a` or entirely in `b`. -/
theorem middle_split {pat a m b : List Char} (h : pat <:+: a ++ m ++ b)
    (hm : m ≠ []) (hdisj : ∀ c ∈ m, c ∉ pat) :
    pat <:+: a ∨ pat <:+: b := by
  obtain ⟨x, y, hxy⟩ := h
  simp only [List.append_assoc] at hxy
  rcases List.append_eq_append_iff.mp hxy with ⟨a1, ha, hrest⟩ | ⟨c1, hx, hrest⟩
  · rcases List.append_eq_append_iff.mp hrest with ⟨w, hw, hy⟩ | ⟨w, hw, hmb⟩
    · exact Or.inl ⟨x, w, by rw [ha, hw]; simp⟩
    · cases w with
      | nil =>
        refine Or.inl ⟨x, [], ?_⟩
        simp only [List.append_nil] at hw
        rw [ha, ← hw]
        simp
      | cons wc w' =>
        exfalso
        have hwcpat : wc ∈ pat := by rw [hw]; simp
        rcases List.append_eq_append_iff.mp hmb with ⟨u, hu, hb2⟩ | ⟨u, hu, hy2⟩
        · obtain ⟨mc, m', rfl⟩ := List.exists_cons_of_ne_nil hm
          simp only [List.cons_append, List.cons.injEq] at hu
          exact hdisj mc (List.mem_cons_self _ _) (hu.1 ▸ hwcpat)
        · exact hdisj wc (by rw [hu]; simp) hwcpat
  · rcases List.append_eq_append_iff.mp hrest with ⟨u, hu, hb2⟩ | ⟨u, hu, hpy⟩
    · exact Or.inr ⟨u, y, by rw [hb2]; simp⟩
    · rcases List.append_eq_append_iff.mp hpy with ⟨w, hw2, hy2⟩ | ⟨w, hw2, hb3⟩
      · cases hpat : pat with
        | nil => exact Or.inl ⟨[], a, by simp⟩
        | cons pc p' =>
          exfalso
          refine hdisj pc ?_ (by rw [hpat]; simp)
          rw [hu, hw2, hpat]
          simp
      · cases u with
        | nil =>
          refine Or.inr ⟨[], y, ?_⟩
          simp only [List.nil_append] at hw2
          rw [hb3, ← hw2]
          simp
        | cons uc u' =>
          exfalso
          refine hdisj uc (by rw [hu]; simp) ?_
          rw [hw2]
          simp

theorem not_contains_middle_str (a m b pat : String) (hm : m ≠ "")
    (hdisj : ∀ c ∈ m.data, c ∉ pat.data)
    (ha : ¬ containsStr a pat) (hb : ¬ containsStr b pat) :
    ¬ containsStr (a ++ m ++ b) pat := by
  intro h
  have hd : (a ++ m ++ b).data = a.data ++ m.data ++ b.data := by
    rw [strData_append, strData_append]
  rw [show containsStr (a ++ m ++ b) pat =
      (pat.data <:+: (a ++ m ++ b).data) from rfl, hd] at h
  rcases middle_split h ((strNe_empty_iff m).mp hm) hdisj with hx | hx
  · exact ha hx
  · exact hb hx

/-- Joint properties of the five-pass substitution chain of the template
processor: with non-empty, tag-disjoint replacement values no pattern
survives, and a pattern-free template passes through unchanged. -/
theorem five_pass_props (content t1 t2 t3 r1 r2 r3 r4 r5 : String)
    (ht1 : t1 ≠ "") (ht2 : t2 ≠ "") (ht3 : t3 ≠ "")
    (hr1 : r1 ≠ "") (hr2 : r2 ≠ "") (hr3 : r3 ≠ "") (hr4 : r4 ≠ "")
    (hr5 : r5 ≠ "")
    (hdisj : ∀ r ∈ [r1, r2, r3, r4, r5],
      ∀ p ∈ [t1, t2, t3, "TARARGS", distroCodenameTag],
      ∀ c ∈ r.data, c ∉ p.data) :
    (∀ p ∈ [t1, t2, t3, "TARARGS", distroCodenameTag],
      ¬ containsStr (replaceAllStr (replaceAllStr (replaceAllStr (replaceAllStr
        (replaceAllStr content t1 r1) t2 r2) t3 r3) "TARARGS" r4)
        distroCodenameTag r5) p) ∧
    ((∀ p ∈ [t1, t2, t3, "TARARGS", distroCodenameTag],
        ¬ containsStr content p) →
      replaceAllStr (replaceAllStr (replaceAllStr (replaceAllStr
        (replaceAllStr content t1 r1) t2 r2) t3 r3) "TARARGS" r4)
        distroCodenameTag r5 = content) ∧
    ([t1, t2, t3, "TARARGS", distroCodenameTag].Pairwise (· ≠ ·) →
      ∀ pr ∈ [(t1, r1), (t2, r2), (t3, r3), ("TARARGS", r4),
        (distroCodenameTag, r5)],
      ∀ a b : String, content = a ++ pr.1 ++ b →
        (∀ p ∈ [t1, t2, t3, "TARARGS", distroCodenameTag],
          ¬ containsStr a p) →
        (∀ p ∈ [t1, t2, t3, "TARARGS", distroCodenameTag],
          ¬ containsStr b p) →
        (∀ p ∈ [t1, t2, t3, "TARARGS", distroCodenameTag], p ≠ pr.1 →
          ¬ containsStr content p) →
        ¬ containsStr (a ++ dropLastStr pr.1) pr.1 →
        replaceAllStr (replaceAllStr (replaceAllStr (replaceAllStr
          (replaceAllStr content t1 r1) t2 r2) t3 r3) "TARARGS" r4)
          distroCodenameTag r5 = a ++ pr.2 ++ b) := by
  have hT : ("TARARGS" : String) ≠ "" := by decide
  have hD : distroCodenameTag ≠ "" := by decide
  constructor
  · intro p hp
    simp only [List.mem_cons, List.not_mem_nil, or_false] at hp
    rcases hp with hp | hp | hp | hp | hp <;> rw [hp]
    · have s1 := remove_pass t1 r1 ht1 hr1
        (fun c hc => hdisj r1 (by simp) t1 (by simp) c hc) content
      have s2 := preserve_pass t2 r2 t1 hr2 ht1
        (fun c hc => hdisj r2 (by simp) t1 (by simp) c hc) _ s1
      have s3 := preserve_pass t3 r3 t1 hr3 ht1
        (fun c hc => hdisj r3 (by simp) t1 (by simp) c hc) _ s2
      have s4 := preserve_pass "TARARGS" r4 t1 hr4 ht1
        (fun c hc => hdisj r4 (by simp) t1 (by simp) c hc) _ s3
      exact preserve_pass distroCodenameTag r5 t1 hr5 ht1
        (fun c hc => hdisj r5 (by simp) t1 (by simp) c hc) _ s4
    · have s2 := remove_pass t2 r2 ht2 hr2
        (fun c hc => hdisj r2 (by simp) t2 (by simp) c hc)
        (replaceAllStr content t1 r1)
      have s3 := preserve_pass t3 r3 t2 hr3 ht2
        (fun c hc => hdisj r3 (by simp) t2 (by simp) c hc) _ s2
      have s4 := preserve_pass "TARARGS" r4 t2 hr4 ht2
        (fun c hc => hdisj r4 (by simp) t2 (by simp) c hc) _ s3
      exact preserve_pass distroCodenameTag r5 t2 hr5 ht2
        (fun c hc => hdisj r5 (by simp) t2 (by simp) c hc) _ s4
    · have s3 := remove_pass t3 r3 ht3 hr3
        (fun c hc => hdisj r3 (by simp) t3 (by simp) c hc)
        (replaceAllStr (replaceAllStr content t1 r1) t2 r2)
      have s4 := preserve_pass "TARARGS" r4 t3 hr4 ht3
        (fun c hc => hdisj r4 (by simp) t3 (by simp) c hc) _ s3
      exact preserve_pass distroCodenameTag r5 t3 hr5 ht3
        (fun c hc => hdisj r5 (by simp) t3 (by simp) c hc) _ s4
    · have s4 := remove_pass "TARARGS" r4 hT hr4
        (fun c hc => hdisj r4 (by simp) "TARARGS" (by simp) c hc)
        (replaceAllStr (replaceAllStr (replaceAllStr content t1 r1) t2 r2) t3 r3)
      exact preserve_pass distroCodenameTag r5 "TARARGS" hr5 hT
        (fun c hc => hdisj r5 (by simp) "TARARGS" (by simp) c hc) _ s4
    · exact remove_pass distroCodenameTag r5 hD hr5
        (fun c hc => hdisj r5 (by simp) distroCodenameTag (by simp) c hc)
        (replaceAllStr (replaceAllStr (replaceAllStr (replaceAllStr content
          t1 r1) t2 r2) t3 r3) "TARARGS" r4)
  · refine ⟨?_, ?_⟩
    · intro h
      rw [noop_pass t1 r1 content (h t1 (by simp))]
      rw [noop_pass t2 r2 content (h t2 (by simp))]
      rw [noop_pass t3 r3 content (h t3 (by simp))]
      rw [noop_pass "TARARGS" r4 content (h "TARARGS" (by simp))]
      rw [noop_pass distroCodenameTag r5 content (h distroCodenameTag (by simp))]
    · intro hdist pr hpr a b hcontent hA hB hOnly hLeft
      rw [List.pairwise_cons, List.pairwise_cons, List.pairwise_cons,
        List.pairwise_cons] at hdist
      obtain ⟨f1, f2, f3, f4, -⟩ := hdist
      simp only [List.mem_cons, List.not_mem_nil, or_false] at hpr
      have hmid : ∀ rk pat : String, rk ≠ "" →
          (∀ c ∈ rk.data, c ∉ pat.data) →
          ¬ containsStr a pat → ¬ containsStr b pat →
          ¬ containsStr (a ++ rk ++ b) pat :=
        fun rk pat h1 h2 h3 h4 => not_contains_middle_str a rk b pat h1 h2 h3 h4
      rcases hpr with rfl | rfl | rfl | rfl | rfl
      · dsimp only at hcontent hOnly hLeft ⊢
        rw [hcontent,
          replaceAllStr_context a t1 b r1 ht1 hLeft (hB t1 (by simp)),
          noop_pass t2 r2 (a ++ r1 ++ b) (hmid r1 t2 hr1
            (fun c hc => hdisj r1 (by simp) t2 (by simp) c hc)
            (hA t2 (by simp)) (hB t2 (by simp))),
          noop_pass t3 r3 (a ++ r1 ++ b) (hmid r1 t3 hr1
            (fun c hc => hdisj r1 (by simp) t3 (by simp) c hc)
            (hA t3 (by simp)) (hB t3 (by simp))),
          noop_pass "TARARGS" r4 (a ++ r1 ++ b) (hmid r1 "TARARGS" hr1
            (fun c hc => hdisj r1 (by simp) "TARARGS" (by simp) c hc)
            (hA "TARARGS" (by simp)) (hB "TARARGS" (by simp))),
          noop_pass distroCodenameTag r5 (a ++ r1 ++ b) (hmid r1 distroCodenameTag hr1
            (fun c hc => hdisj r1 (by simp) distroCodenameTag (by simp) c hc)
            (hA distroCodenameTag (by simp)) (hB distroCodenameTag (by simp)))]
      · dsimp only at hcontent hOnly hLeft ⊢
        rw [noop_pass t1 r1 content (hOnly t1 (by simp) (f1 t2 (by simp))),
          hcontent,
          replaceAllStr_context a t2 b r2 ht2 hLeft (hB t2 (by simp)),
          noop_pass t3 r3 (a ++ r2 ++ b) (hmid r2 t3 hr2
            (fun c hc => hdisj r2 (by simp) t3 (by simp) c hc)
            (hA t3 (by simp)) (hB t3 (by simp))),
          noop_pass "TARARGS" r4 (a ++ r2 ++ b) (hmid r2 "TARARGS" hr2
            (fun c hc => hdisj r2 (by simp) "TARARGS" (by simp) c hc)
            (hA "TARARGS" (by simp)) (hB "TARARGS" (by simp))),
          noop_pass distroCodenameTag r5 (a ++ r2 ++ b) (hmid r2 distroCodenameTag hr2
            (fun c hc => hdisj r2 (by simp) distroCodenameTag (by simp) c hc)
            (hA distroCodenameTag (by simp)) (hB distroCodenameTag (by simp)))]
      · dsimp only at hcontent hOnly hLeft ⊢
        rw [noop_pass t1 r1 content (hOnly t1 (by simp) (f1 t3 (by simp))),
          noop_pass t2 r2 content (hOnly t2 (by simp) (f2 t3 (by simp))),
          hcontent,
          replaceAllStr_context a t3 b r3 ht3 hLeft (hB t3 (by simp)),
          noop_pass "TARARGS" r4 (a ++ r3 ++ b) (hmid r3 "TARARGS" hr3
            (fun c hc => hdisj r3 (by simp) "TARARGS" (by simp) c hc)
            (hA "TARARGS" (by simp)) (hB "TARARGS" (by simp))),
          noop_pass distroCodenameTag r5 (a ++ r3 ++ b) (hmid r3 distroCodenameTag hr3
            (fun c hc => hdisj r3 (by simp) distroCodenameTag (by simp) c hc)
            (hA distroCodenameTag (by simp)) (hB distroCodenameTag (by simp)))]
      · dsimp only at hcontent hOnly hLeft ⊢
        rw [noop_pass t1 r1 content (hOnly t1 (by simp) (f1 "TARARGS" (by simp))),
          noop_pass t2 r2 content (hOnly t2 (by simp) (f2 "TARARGS" (by simp))),
          noop_pass t3 r3 content (hOnly t3 (by simp) (f3 "TARARGS" (by simp))),
          hcontent,
          replaceAllStr_context a "TARARGS" b r4 hT hLeft (hB "TARARGS" (by simp)),
          noop_pass distroCodenameTag r5 (a ++ r4 ++ b) (hmid r4 distroCodenameTag hr4
            (fun c hc => hdisj r4 (by simp) distroCodenameTag (by simp) c hc)
            (hA distroCodenameTag (by simp)) (hB distroCodenameTag (by simp)))]
      · dsimp only at hcontent hOnly hLeft ⊢
        rw [noop_pass t1 r1 content (hOnly t1 (by simp) (f1 distroCodenameTag (by simp))),
          noop_pass t2 r2 content (hOnly t2 (by simp) (f2 distroCodenameTag (by simp))),
          noop_pass t3 r3 content (hOnly t3 (by simp) (f3 distroCodenameTag (by simp))),
          noop_pass "TARARGS" r4 content (hOnly "TARARGS" (by simp)
            (f4 distroCodenameTag (by simp))),
          hcontent,
          replaceAllStr_context a distroCodenameTag b r5 hD hLeft
            (hB distroCodenameTag (by simp))]

/-- **C6** (amended): after one successful application of the template
processor — provided the distro codename is non-empty and none of the
replacement values (implementation version, implementation URL, the tarball
basename, any of the three tar flags, the codename) shares a character with
any configured tag or with the `TARARGS`/`DISTROCODENAME` markers —
(a) no occurrence of any tag or marker remains in the written output;
(b) a template without any tag or marker occurrence is written back
byte-for-byte unchanged; and (c) literal non-tag text around a substitution
site is preserved byte-for-byte: for a template `a ++ tag ++ b` whose
surrounding parts `a`, `b` contain no tag or marker occurrence, with the
five patterns pairwise distinct, no other pattern occurring in the
template, and the designated occurrence leftmost (no occurrence of the tag
starts inside `a`), the output is exactly `a ++ value ++ b` with the tag's
replacement value spliced between the untouched parts.  (Without the
disjointness proviso a replacement value can re-introduce tag text: see
the counterexample.) -/
theorem C6_template_substitution (data : DefFileData) (content out : String)
    (hok : UpdateDeffileTemplate data content = .ok out)
    (hcd : data.DistroID.Codename ≠ "")
    (hdisj : ∀ r ∈ [(mpiOf data).Version, (mpiOf data).URL,
        pathBase (mpiOf data).URL, "-xjf", "-xzf", "-xf",
        data.DistroID.Codename],
      ∀ p ∈ [data.Tags.Version, data.Tags.URL, data.Tags.Tarball,
        "TARARGS", distroCodenameTag],
      ∀ c ∈ r.data, c ∉ p.data) :
    (∀ p ∈ [data.Tags.Version, data.Tags.URL, data.Tags.Tarball,
        "TARARGS", distroCodenameTag], ¬ containsStr out p) ∧
    ((∀ p ∈ [data.Tags.Version, data.Tags.URL, data.Tags.Tarball,
        "TARARGS", distroCodenameTag], ¬ containsStr content p) →
      out = content) ∧
    ([data.Tags.Version, data.Tags.URL, data.Tags.Tarball, "TARARGS",
        distroCodenameTag].Pairwise (· ≠ ·) →
      ∀ pr ∈ [(data.Tags.Version, (mpiOf data).Version),
        (data.Tags.URL, (mpiOf data).URL),
        (data.Tags.Tarball, pathBase (mpiOf data).URL),
        ("TARARGS", GetTarArgs (DetectTarballFormat (pathBase (mpiOf data).URL))),
        (distroCodenameTag, data.DistroID.Codename)],
      ∀ a b : String, content = a ++ pr.1 ++ b →
        (∀ p ∈ [data.Tags.Version, data.Tags.URL, data.Tags.Tarball,
          "TARARGS", distroCodenameTag], ¬ containsStr a p) →
        (∀ p ∈ [data.Tags.Version, data.Tags.URL, data.Tags.Tarball,
          "TARARGS", distroCodenameTag], ¬ containsStr b p) →
        (∀ p ∈ [data.Tags.Version, data.Tags.URL, data.Tags.Tarball,
          "TARARGS", distroCodenameTag], p ≠ pr.1 →
          ¬ containsStr content p) →
        ¬ containsStr (a ++ dropLastStr pr.1) pr.1 →
        out = a ++ pr.2 ++ b) := by
  unfold UpdateDeffileTemplate at hok
  by_cases hpre : (mpiOf data).Version = "" ∨ (mpiOf data).URL = ""
      ∨ data.Path = "" ∨ data.Tags.Version = ""
      ∨ data.Tags.URL = "" ∨ data.Tags.Tarball = ""
      ∨ data.DistroID.Name = ""
  · rw [if_pos hpre] at hok
    exact Except.noConfusion hok
  · rw [if_neg hpre] at hok
    push_neg at hpre
    obtain ⟨hv, hu, -, ht1, ht2, ht3, -⟩ := hpre
    dsimp only [UpdateDistroCodename] at hok
    have hdisj5 : ∀ r4 ∈ [("-xjf" : String), "-xzf", "-xf"],
        ∀ r ∈ [(mpiOf data).Version, (mpiOf data).URL,
          pathBase (mpiOf data).URL, r4, data.DistroID.Codename],
        ∀ p ∈ [data.Tags.Version, data.Tags.URL, data.Tags.Tarball,
          "TARARGS", distroCodenameTag],
        ∀ c ∈ r.data, c ∉ p.data := by
      intro r4 hr4 r hr
      apply hdisj r
      simp only [List.mem_cons, List.not_mem_nil, or_false] at hr4 hr ⊢
      rcases hr4 with rfl | rfl | rfl <;> tauto
    cases hfmt : DetectTarballFormat (pathBase (mpiOf data).URL) with
    | BZ2 =>
      rw [hfmt] at hok
      dsimp only at hok
      injection hok with hout
      have hfive := five_pass_props content data.Tags.Version data.Tags.URL
        data.Tags.Tarball (mpiOf data).Version (mpiOf data).URL
        (pathBase (mpiOf data).URL) "-xjf" data.DistroID.Codename
        ht1 ht2 ht3 hv hu (pathBase_ne_empty _) (by decide) hcd
        (hdisj5 "-xjf" (by simp))
      exact ⟨fun p hp => hout ▸ hfive.1 p hp, fun hn => hout ▸ hfive.2.1 hn,
        fun hdist pr hpr a b hc hA hB hO hL =>
          hout ▸ hfive.2.2 hdist pr hpr a b hc hA hB hO hL⟩
    | GZ =>
      rw [hfmt] at hok
      dsimp only at hok
      injection hok with hout
      have hfive := five_pass_props content data.Tags.Version data.Tags.URL
        data.Tags.Tarball (mpiOf data).Version (mpiOf data).URL
        (pathBase (mpiOf data).URL) "-xzf" data.DistroID.Codename
        ht1 ht2 ht3 hv hu (pathBase_ne_empty _) (by decide) hcd
        (hdisj5 "-xzf" (by simp))
      exact ⟨fun p hp => hout ▸ hfive.1 p hp, fun hn => hout ▸ hfive.2.1 hn,
        fun hdist pr hpr a b hc hA hB hO hL =>
          hout ▸ hfive.2.2 hdist pr hpr a b hc hA hB hO hL⟩
    | TAR =>
      rw [hfmt] at hok
      dsimp only at hok
      injection hok with hout
      have hfive := five_pass_props content data.Tags.Version data.Tags.URL
        data.Tags.Tarball (mpiOf data).Version (mpiOf data).URL
        (pathBase (mpiOf data).URL) "-xf" data.DistroID.Codename
        ht1 ht2 ht3 hv hu (pathBase_ne_empty _) (by decide) hcd
        (hdisj5 "-xf" (by simp))
      exact ⟨fun p hp => hout ▸ hfive.1 p hp, fun hn => hout ▸ hfive.2.1 hn,
        fun hdist pr hpr a b hc hA hB hO hL =>
          hout ▸ hfive.2.2 hdist pr hpr a b hc hA hB hO hL⟩
    | Unknown =>
      rw [hfmt] at hok
      dsimp only at hok
      exact Except.noConfusion hok

theorem C6_template_substitution_witness :
    ¬ containsStr "A4.0B" "QQQ1" ∧ ¬ containsStr "A4.0B" "QQQ2" ∧
    ¬ containsStr "A4.0B" "QQQ3" ∧ ¬ containsStr "A4.0B" "TARARGS" ∧
    ¬ containsStr "A4.0B" distroCodenameTag ∧
    ("A4.0B" : String) = "A" ++ "4.0" ++ "B" := by
  have h := C6_template_substitution
    { Path := "p", DistroID := ⟨"ubuntu", "7.7", "focal"⟩,
      MpiImplm := some ⟨"OMPI", "4.0", "http://x/a.tar"⟩,
      Tags := ⟨"QQQ1", "QQQ3", "QQQ2", "", "", "", ""⟩,
      InternalEnv := none, Model := "" } "AQQQ1B" "A4.0B"
    (by rfl) (by decide) (by decide)
  exact ⟨h.1 _ (by decide), h.1 _ (by decide), h.1 _ (by decide),
    h.1 _ (by decide), h.1 _ (by decide),
    h.2.2 (by decide) ("QQQ1", "4.0") (by decide) "A" "B" (by decide)
      (by decide) (by decide) (by decide) (by decide)⟩

/-! ## C9 -/

theorem noNl_append (a b : String) (ha : noNl a) (hb : noNl b) :
    noNl (a ++ b) := by
  intro c hc
  rw [strData_append] at hc
  rcases List.mem_append.mp hc with h | h
  · exact ha c h
  · exact hb c h

theorem parseInspectOutput_single (line : String) (hl : noNl line) :
    parseInspectOutput line =
      parseInspectLine ({}, { ID := "", Version := "", URL := "" }) line := by
  unfold parseInspectOutput splitLinesStr
  rw [splitLinesL_of_noNl line.data hl]
  rfl

theorem keyline_contains_iff (keyJ keyK : List Char) (v : String)
    (hkJ : ∀ c ∈ keyJ, c ≠ ':') (hkK : ∀ c ∈ keyK, c ≠ ':')
    (hv : ∀ c ∈ v.data, c ≠ ':') (litJ litK : String)
    (hJ : litJ.data = keyJ ++ ':' :: ' ' :: [])
    (hK : litK.data = keyK ++ ':' :: ' ' :: []) :
    containsStr (litK ++ v) litJ ↔ keyJ <:+ keyK := by
  have hc : (litK ++ v).data = keyK ++ ':' :: ' ' :: v.data := by
    rw [strData_append, hK]
    simp
  show litJ.data <:+: (litK ++ v).data ↔ _
  rw [hc, hJ]
  exact keyline_infix_iff keyJ keyK v.data hkJ hkK hv

theorem not_contains_of_colon_free (v litK : String)
    (hv : ∀ c ∈ v.data, c ≠ ':') (hcolon : ':' ∈ litK.data) :
    ¬ containsStr v litK :=
  fun h => hv ':' (h.subset hcolon) rfl

theorem replace_key_value (litK v : String) (hne : litK.data ≠ [])
    (hself : ¬ containsStr v litK) :
    replaceAllStr (litK ++ v) litK "" = v := by
  unfold replaceAllStr
  have h1 : (litK ++ v).data = litK.data ++ v.data := strData_append _ _
  rw [h1, replaceAllL_left litK.data [] v.data hne, List.nil_append,
      replaceAllL_no_occurrence _ _ _ hself]

set_option maxRecDepth 40000 in
/-- **C9**, counterexample: the label emitter writes `\tMPI_Version 4.0.2`
(tab, key, space, value — no colon), but the inspect-output parser matches
the prefix `MPI_Version: ` (key, colon, space — the rendering of
`singularity inspect`, not the emitter's raw format), so parsing the
emitter's own text recovers nothing: the parser's prefixes do not match what
the emitter writes, refuting the claimed emitter/parser round-trip as
stated. -/
theorem C9_counterexample :
    containsStr (addLabels ⟨"mpitest", "mpitest", "/opt/mpitest", "s.c", ""⟩
      (mkData "ubuntu" HybridModel (some ⟨"OMPI", "4.0.2", "u"⟩))).1
      "\tMPI_Version 4.0.2\n" ∧
    (parseInspectOutput (addLabels ⟨"mpitest", "mpitest", "/opt/mpitest", "s.c", ""⟩
      (mkData "ubuntu" HybridModel (some ⟨"OMPI", "4.0.2", "u"⟩))).1).2.Version = "" :=
  ⟨by decide, by decide⟩


/-- **C9** (amended): the parser recovers values by line-substring matching
with prefixes of the form `Key: ` (colon-space — the `singularity inspect`
rendering), not the emitter's space-separated label format, and only for the
six keys `MPI_Implementation`, `MPI_Version`, `Model`, `Linux_version`,
`App_exe`, `MPI_Directory`; `Linux_distribution` and `Application` are not
recovered at all.  For an inspect line `Key: v` whose value contains no
newline and no colon, the parsed field is exactly `v` (round-trip for the
six parsed fields through the inspect rendering). -/
theorem C9_parse_recovery (v : String) (hv : noNl v)
    (hvc : ∀ c ∈ v.data, c ≠ ':') :
    (parseInspectOutput ("MPI_Implementation: " ++ v)).2.ID = v ∧
    (parseInspectOutput ("MPI_Version: " ++ v)).2.Version = v ∧
    (parseInspectOutput ("Model: " ++ v)).1.Model = v ∧
    (parseInspectOutput ("Linux_version: " ++ v)).1.Distro = v ∧
    (parseInspectOutput ("App_exe: " ++ v)).1.AppExe = v ∧
    (parseInspectOutput ("MPI_Directory: " ++ v)).1.MPIDir = v ∧
    parseInspectOutput ("Linux_distribution: " ++ v) =
      ({}, { ID := "", Version := "", URL := "" }) ∧
    parseInspectOutput ("Application: " ++ v) =
      ({}, { ID := "", Version := "", URL := "" }) := by
  refine ⟨?_, ?_, ?_, ?_, ?_, ?_, ?_, ?_⟩
  · have hnl : noNl ("MPI_Implementation: " ++ v) := noNl_append _ _ (by decide) hv
    have e1 : containsStr ("MPI_Implementation: " ++ v) "MPI_Implementation: " :=
      (keyline_contains_iff ("MPI_Implementation" : String).data ("MPI_Implementation" : String).data v
        (by decide) (by decide) hvc "MPI_Implementation: " "MPI_Implementation: " (by decide) (by decide)).mpr (List.suffix_refl _)
    have e2 : ¬ containsStr ("MPI_Implementation: " ++ v) "MPI_Version: " :=
      fun hx => absurd ((keyline_contains_iff ("MPI_Version" : String).data ("MPI_Implementation" : String).data v
        (by decide) (by decide) hvc "MPI_Version: " "MPI_Implementation: " (by decide) (by decide)).mp hx) (by decide)
    have e3 : ¬ containsStr ("MPI_Implementation: " ++ v) "Model: " :=
      fun hx => absurd ((keyline_contains_iff ("Model" : String).data ("MPI_Implementation" : String).data v
        (by decide) (by decide) hvc "Model: " "MPI_Implementation: " (by decide) (by decide)).mp hx) (by decide)
    have e4 : ¬ containsStr ("MPI_Implementation: " ++ v) "Linux_version: " :=
      fun hx => absurd ((keyline_contains_iff ("Linux_version" : String).data ("MPI_Implementation" : String).data v
        (by decide) (by decide) hvc "Linux_version: " "MPI_Implementation: " (by decide) (by decide)).mp hx) (by decide)
    have e5 : ¬ containsStr ("MPI_Implementation: " ++ v) "App_exe: " :=
      fun hx => absurd ((keyline_contains_iff ("App_exe" : String).data ("MPI_Implementation" : String).data v
        (by decide) (by decide) hvc "App_exe: " "MPI_Implementation: " (by decide) (by decide)).mp hx) (by decide)
    have e6 : ¬ containsStr ("MPI_Implementation: " ++ v) "MPI_Directory: " :=
      fun hx => absurd ((keyline_contains_iff ("MPI_Directory" : String).data ("MPI_Implementation" : String).data v
        (by decide) (by decide) hvc "MPI_Directory: " "MPI_Implementation: " (by decide) (by decide)).mp hx) (by decide)
    rw [parseInspectOutput_single _ hnl]
    unfold parseInspectLine
    dsimp only
    simp only [if_pos e1, if_neg e2, if_neg e3, if_neg e4, if_neg e5, if_neg e6]
    exact replace_key_value "MPI_Implementation: " v (by decide)
      (not_contains_of_colon_free v "MPI_Implementation: " hvc (by decide))
  · have hnl : noNl ("MPI_Version: " ++ v) := noNl_append _ _ (by decide) hv
    have e1 : ¬ containsStr ("MPI_Version: " ++ v) "MPI_Implementation: " :=
      fun hx => absurd ((keyline_contains_iff ("MPI_Implementation" : String).data ("MPI_Version" : String).data v
        (by decide) (by decide) hvc "MPI_Implementation: " "MPI_Version: " (by decide) (by decide)).mp hx) (by decide)
    have e2 : containsStr ("MPI_Version: " ++ v) "MPI_Version: " :=
      (keyline_contains_iff ("MPI_Version" : String).data ("MPI_Version" : String).data v
        (by decide) (by decide) hvc "MPI_Version: " "MPI_Version: " (by decide) (by decide)).mpr (List.suffix_refl _)
    have e3 : ¬ containsStr ("MPI_Version: " ++ v) "Model: " :=
      fun hx => absurd ((keyline_contains_iff ("Model" : String).data ("MPI_Version" : String).data v
        (by decide) (by decide) hvc "Model: " "MPI_Version: " (by decide) (by decide)).mp hx) (by decide)
    have e4 : ¬ containsStr ("MPI_Version: " ++ v) "Linux_version: " :=
      fun hx => absurd ((keyline_contains_iff ("Linux_version" : String).data ("MPI_Version" : String).data v
        (by decide) (by decide) hvc "Linux_version: " "MPI_Version: " (by decide) (by decide)).mp hx) (by decide)
    have e5 : ¬ containsStr ("MPI_Version: " ++ v) "App_exe: " :=
      fun hx => absurd ((keyline_contains_iff ("App_exe" : String).data ("MPI_Version" : String).data v
        (by decide) (by decide) hvc "App_exe: " "MPI_Version: " (by decide) (by decide)).mp hx) (by decide)
    have e6 : ¬ containsStr ("MPI_Version: " ++ v) "MPI_Directory: " :=
      fun hx => absurd ((keyline_contains_iff ("MPI_Directory" : String).data ("MPI_Version" : String).data v
        (by decide) (by decide) hvc "MPI_Directory: " "MPI_Version: " (by decide) (by decide)).mp hx) (by decide)
    rw [parseInspectOutput_single _ hnl]
    unfold parseInspectLine
    dsimp only
    simp only [if_neg e1, if_pos e2, if_neg e3, if_neg e4, if_neg e5, if_neg e6]
    exact replace_key_value "MPI_Version: " v (by decide)
      (not_contains_of_colon_free v "MPI_Version: " hvc (by decide))
  · have hnl : noNl ("Model: " ++ v) := noNl_append _ _ (by decide) hv
    have e1 : ¬ containsStr ("Model: " ++ v) "MPI_Implementation: " :=
      fun hx => absurd ((keyline_contains_iff ("MPI_Implementation" : String).data ("Model" : String).data v
        (by decide) (by decide) hvc "MPI_Implementation: " "Model: " (by decide) (by decide)).mp hx) (by decide)
    have e2 : ¬ containsStr ("Model: " ++ v) "MPI_Version: " :=
      fun hx => absurd ((keyline_contains_iff ("MPI_Version" : String).data ("Model" : String).data v
        (by decide) (by decide) hvc "MPI_Version: " "Model: " (by decide) (by decide)).mp hx) (by decide)
    have e3 : containsStr ("Model: " ++ v) "Model: " :=
      (keyline_contains_iff ("Model" : String).data ("Model" : String).data v
        (by decide) (by decide) hvc "Model: " "Model: " (by decide) (by decide)).mpr (List.suffix_refl _)
    have e4 : ¬ containsStr ("Model: " ++ v) "Linux_version: " :=
      fun hx => absurd ((keyline_contains_iff ("Linux_version" : String).data ("Model" : String).data v
        (by decide) (by decide) hvc "Linux_version: " "Model: " (by decide) (by decide)).mp hx) (by decide)
    have e5 : ¬ containsStr ("Model: " ++ v) "App_exe: " :=
      fun hx => absurd ((keyline_contains_iff ("App_exe" : String).data ("Model" : String).data v
        (by decide) (by decide) hvc "App_exe: " "Model: " (by decide) (by decide)).mp hx) (by decide)
    have e6 : ¬ containsStr ("Model: " ++ v) "MPI_Directory: " :=
      fun hx => absurd ((keyline_contains_iff ("MPI_Directory" : String).data ("Model" : String).data v
        (by decide) (by decide) hvc "MPI_Directory: " "Model: " (by decide) (by decide)).mp hx) (by decide)
    rw [parseInspectOutput_single _ hnl]
    unfold parseInspectLine
    dsimp only
    simp only [if_neg e1, if_neg e2, if_pos e3, if_neg e4, if_neg e5, if_neg e6]
    exact replace_key_value "Model: " v (by decide)
      (not_contains_of_colon_free v "Model: " hvc (by decide))
  · have hnl : noNl ("Linux_version: " ++ v) := noNl_append _ _ (by decide) hv
    have e1 : ¬ containsStr ("Linux_version: " ++ v) "MPI_Implementation: " :=
      fun hx => absurd ((keyline_contains_iff ("MPI_Implementation" : String).data ("Linux_version" : String).data v
        (by decide) (by decide) hvc "MPI_Implementation: " "Linux_version: " (by decide) (by decide)).mp hx) (by decide)
    have e2 : ¬ containsStr ("Linux_version: " ++ v) "MPI_Version: " :=
      fun hx => absurd ((keyline_contains_iff ("MPI_Version" : String).data ("Linux_version" : String).data v
        (by decide) (by decide) hvc "MPI_Version: " "Linux_version: " (by decide) (by decide)).mp hx) (by decide)
    have e3 : ¬ containsStr ("Linux_version: " ++ v) "Model: " :=
      fun hx => absurd ((keyline_contains_iff ("Model" : String).data ("Linux_version" : String).data v
        (by decide) (by decide) hvc "Model: " "Linux_version: " (by decide) (by decide)).mp hx) (by decide)
    have e4 : containsStr ("Linux_version: " ++ v) "Linux_version: " :=
      (keyline_contains_iff ("Linux_version" : String).data ("Linux_version" : String).data v
        (by decide) (by decide) hvc "Linux_version: " "Linux_version: " (by decide) (by decide)).mpr (List.suffix_refl _)
    have e5 : ¬ containsStr ("Linux_version: " ++ v) "App_exe: " :=
      fun hx => absurd ((keyline_contains_iff ("App_exe" : String).data ("Linux_version" : String).data v
        (by decide) (by decide) hvc "App_exe: " "Linux_version: " (by decide) (by decide)).mp hx) (by decide)
    have e6 : ¬ containsStr ("Linux_version: " ++ v) "MPI_Directory: " :=
      fun hx => absurd ((keyline_contains_iff ("MPI_Directory" : String).data ("Linux_version" : String).data v
        (by decide) (by decide) hvc "MPI_Directory: " "Linux_version: " (by decide) (by decide)).mp hx) (by decide)
    rw [parseInspectOutput_single _ hnl]
    unfold parseInspectLine
    dsimp only
    simp only [if_neg e1, if_neg e2, if_neg e3, if_pos e4, if_neg e5, if_neg e6]
    exact replace_key_value "Linux_version: " v (by decide)
      (not_contains_of_colon_free v "Linux_version: " hvc (by decide))
  · have hnl : noNl ("App_exe: " ++ v) := noNl_append _ _ (by decide) hv
    have e1 : ¬ containsStr ("App_exe: " ++ v) "MPI_Implementation: " :=
      fun hx => absurd ((keyline_contains_iff ("MPI_Implementation" : String).data ("App_exe" : String).data v
        (by decide) (by decide) hvc "MPI_Implementation: " "App_exe: " (by decide) (by decide)).mp hx) (by decide)
    have e2 : ¬ containsStr ("App_exe: " ++ v) "MPI_Version: " :=
      fun hx => absurd ((keyline_contains_iff ("MPI_Version" : String).data ("App_exe" : String).data v
        (by decide) (by decide) hvc "MPI_Version: " "App_exe: " (by decide) (by decide)).mp hx) (by decide)
    have e3 : ¬ containsStr ("App_exe: " ++ v) "Model: " :=
      fun hx => absurd ((keyline_contains_iff ("Model" : String).data ("App_exe" : String).data v
        (by decide) (by decide) hvc "Model: " "App_exe: " (by decide) (by decide)).mp hx) (by decide)
    have e4 : ¬ containsStr ("App_exe: " ++ v) "Linux_version: " :=
      fun hx => absurd ((keyline_contains_iff ("Linux_version" : String).data ("App_exe" : String).data v
        (by decide) (by decide) hvc "Linux_version: " "App_exe: " (by decide) (by decide)).mp hx) (by decide)
    have e5 : containsStr ("App_exe: " ++ v) "App_exe: " :=
      (keyline_contains_iff ("App_exe" : String).data ("App_exe" : String).data v
        (by decide) (by decide) hvc "App_exe: " "App_exe: " (by decide) (by decide)).mpr (List.suffix_refl _)
    have e6 : ¬ containsStr ("App_exe: " ++ v) "MPI_Directory: " :=
      fun hx => absurd ((keyline_contains_iff ("MPI_Directory" : String).data ("App_exe" : String).data v
        (by decide) (by decide) hvc "MPI_Directory: " "App_exe: " (by decide) (by decide)).mp hx) (by decide)
    rw [parseInspectOutput_single _ hnl]
    unfold parseInspectLine
    dsimp only
    simp only [if_neg e1, if_neg e2, if_neg e3, if_neg e4, if_pos e5, if_neg e6]
    exact replace_key_value "App_exe: " v (by decide)
      (not_contains_of_colon_free v "App_exe: " hvc (by decide))
  · have hnl : noNl ("MPI_Directory: " ++ v) := noNl_append _ _ (by decide) hv
    have e1 : ¬ containsStr ("MPI_Directory: " ++ v) "MPI_Implementation: " :=
      fun hx => absurd ((keyline_contains_iff ("MPI_Implementation" : String).data ("MPI_Directory" : String).data v
        (by decide) (by decide) hvc "MPI_Implementation: " "MPI_Directory: " (by decide) (by decide)).mp hx) (by decide)
    have e2 : ¬ containsStr ("MPI_Directory: " ++ v) "MPI_Version: " :=
      fun hx => absurd ((keyline_contains_iff ("MPI_Version" : String).data ("MPI_Directory" : String).data v
        (by decide) (by decide) hvc "MPI_Version: " "MPI_Directory: " (by decide) (by decide)).mp hx) (by decide)
    have e3 : ¬ containsStr ("MPI_Directory: " ++ v) "Model: " :=
      fun hx => absurd ((keyline_contains_iff ("Model" : String).data ("MPI_Directory" : String).data v
        (by decide) (by decide) hvc "Model: " "MPI_Directory: " (by decide) (by decide)).mp hx) (by decide)
    have e4 : ¬ containsStr ("MPI_Directory: " ++ v) "Linux_version: " :=
      fun hx => absurd ((keyline_contains_iff ("Linux_version" : String).data ("MPI_Directory" : String).data v
        (by decide) (by decide) hvc "Linux_version: " "MPI_Directory: " (by decide) (by decide)).mp hx) (by decide)
    have e5 : ¬ containsStr ("MPI_Directory: " ++ v) "App_exe: " :=
      fun hx => absurd ((keyline_contains_iff ("App_exe" : String).data ("MPI_Directory" : String).data v
        (by decide) (by decide) hvc "App_exe: " "MPI_Directory: " (by decide) (by decide)).mp hx) (by decide)
    have e6 : containsStr ("MPI_Directory: " ++ v) "MPI_Directory: " :=
      (keyline_contains_iff ("MPI_Directory" : String).data ("MPI_Directory" : String).data v
        (by decide) (by decide) hvc "MPI_Directory: " "MPI_Directory: " (by decide) (by decide)).mpr (List.suffix_refl _)
    rw [parseInspectOutput_single _ hnl]
    unfold parseInspectLine
    dsimp only
    simp only [if_neg e1, if_neg e2, if_neg e3, if_neg e4, if_neg e5, if_pos e6]
    exact replace_key_value "MPI_Directory: " v (by decide)
      (not_contains_of_colon_free v "MPI_Directory: " hvc (by decide))
  · have hnl : noNl ("Linux_distribution: " ++ v) := noNl_append _ _ (by decide) hv
    have e1 : ¬ containsStr ("Linux_distribution: " ++ v) "MPI_Implementation: " :=
      fun hx => absurd ((keyline_contains_iff ("MPI_Implementation" : String).data ("Linux_distribution" : String).data v
        (by decide) (by decide) hvc "MPI_Implementation: " "Linux_distribution: " (by decide) (by decide)).mp hx) (by decide)
    have e2 : ¬ containsStr ("Linux_distribution: " ++ v) "MPI_Version: " :=
      fun hx => absurd ((keyline_contains_iff ("MPI_Version" : String).data ("Linux_distribution" : String).data v
        (by decide) (by decide) hvc "MPI_Version: " "Linux_distribution: " (by decide) (by decide)).mp hx) (by decide)
    have e3 : ¬ containsStr ("Linux_distribution: " ++ v) "Model: " :=
      fun hx => absurd ((keyline_contains_iff ("Model" : String).data ("Linux_distribution" : String).data v
        (by decide) (by decide) hvc "Model: " "Linux_distribution: " (by decide) (by decide)).mp hx) (by decide)
    have e4 : ¬ containsStr ("Linux_distribution: " ++ v) "Linux_version: " :=
      fun hx => absurd ((keyline_contains_iff ("Linux_version" : String).data ("Linux_distribution" : String).data v
        (by decide) (by decide) hvc "Linux_version: " "Linux_distribution: " (by decide) (by decide)).mp hx) (by decide)
    have e5 : ¬ containsStr ("Linux_distribution: " ++ v) "App_exe: " :=
      fun hx => absurd ((keyline_contains_iff ("App_exe" : String).data ("Linux_distribution" : String).data v
        (by decide) (by decide) hvc "App_exe: " "Linux_distribution: " (by decide) (by decide)).mp hx) (by decide)
    have e6 : ¬ containsStr ("Linux_distribution: " ++ v) "MPI_Directory: " :=
      fun hx => absurd ((keyline_contains_iff ("MPI_Directory" : String).data ("Linux_distribution" : String).data v
        (by decide) (by decide) hvc "MPI_Directory: " "Linux_distribution: " (by decide) (by decide)).mp hx) (by decide)
    rw [parseInspectOutput_single _ hnl]
    unfold parseInspectLine
    dsimp only
    simp only [if_neg e1, if_neg e2, if_neg e3, if_neg e4, if_neg e5, if_neg e6]
  · have hnl : noNl ("Application: " ++ v) := noNl_append _ _ (by decide) hv
    have e1 : ¬ containsStr ("Application: " ++ v) "MPI_Implementation: " :=
      fun hx => absurd ((keyline_contains_iff ("MPI_Implementation" : String).data ("Application" : String).data v
        (by decide) (by decide) hvc "MPI_Implementation: " "Application: " (by decide) (by decide)).mp hx) (by decide)
    have e2 : ¬ containsStr ("Application: " ++ v) "MPI_Version: " :=
      fun hx => absurd ((keyline_contains_iff ("MPI_Version" : String).data ("Application" : String).data v
        (by decide) (by decide) hvc "MPI_Version: " "Application: " (by decide) (by decide)).mp hx) (by decide)
    have e3 : ¬ containsStr ("Application: " ++ v) "Model: " :=
      fun hx => absurd ((keyline_contains_iff ("Model" : String).data ("Application" : String).data v
        (by decide) (by decide) hvc "Model: " "Application: " (by decide) (by decide)).mp hx) (by decide)
    have e4 : ¬ containsStr ("Application: " ++ v) "Linux_version: " :=
      fun hx => absurd ((keyline_contains_iff ("Linux_version" : String).data ("Application" : String).data v
        (by decide) (by decide) hvc "Linux_version: " "Application: " (by decide) (by decide)).mp hx) (by decide)
    have e5 : ¬ containsStr ("Application: " ++ v) "App_exe: " :=
      fun hx => absurd ((keyline_contains_iff ("App_exe" : String).data ("Application" : String).data v
        (by decide) (by decide) hvc "App_exe: " "Application: " (by decide) (by decide)).mp hx) (by decide)
    have e6 : ¬ containsStr ("Application: " ++ v) "MPI_Directory: " :=
      fun hx => absurd ((keyline_contains_iff ("MPI_Directory" : String).data ("Application" : String).data v
        (by decide) (by decide) hvc "MPI_Directory: " "Application: " (by decide) (by decide)).mp hx) (by decide)
    rw [parseInspectOutput_single _ hnl]
    unfold parseInspectLine
    dsimp only
    simp only [if_neg e1, if_neg e2, if_neg e3, if_neg e4, if_neg e5, if_neg e6]

theorem C9_parse_recovery_witness :
    (parseInspectOutput ("MPI_Version: " ++ "4.0.2")).2.Version = "4.0.2" ∧
    parseInspectOutput ("Application: " ++ "4.0.2") =
      ({}, { ID := "", Version := "", URL := "" }) := by
  have h := C9_parse_recovery "4.0.2" (by decide) (by decide)
  exact ⟨h.2.1, h.2.2.2.2.2.2.2⟩
